import Mathlib

/-!
Verification of the ChirpStack Gateway Mesh relay engine.

This file shallowly embeds the Rust sources of the mesh relay (packet codec,
AES-128 based key derivation and payload encryption, CMAC MIC, dedup cache,
mapping helpers, event emission, command execution and the relay state
machine) as executable Lean definitions over `Nat`-valued bytes, and proves
or refutes the specification claims about them.

Bytes are modelled as `Nat` values below 256; byte strings as `List Nat`.
Machine-integer wrap-around (`as u8`, `as u32`) is made explicit with `% 256`
and `% 2 ^ 32` where the Rust code can actually wrap.
-/

set_option maxRecDepth 4096

namespace Mesh

/-! ## AES-128 (the `aes` crate primitive used by `aes128.rs` and `packets.rs`)

The repository calls into the `aes` crate for single-block AES-128
encryption.  We embed the standard FIPS-197 cipher so that key derivation,
payload encryption and the CMAC MIC are fully executable. The state is kept
as 16 bytes in column-major order, exactly as the byte order of the Rust
`Block` type. -/

/-- The AES S-box (FIPS-197, Fig. 7). -/
def sbox_table : List Nat := [
  99, 124, 119, 123, 242, 107, 111, 197, 48, 1, 103, 43, 254, 215, 171, 118,
  202, 130, 201, 125, 250, 89, 71, 240, 173, 212, 162, 175, 156, 164, 114, 192,
  183, 253, 147, 38, 54, 63, 247, 204, 52, 165, 229, 241, 113, 216, 49, 21,
  4, 199, 35, 195, 24, 150, 5, 154, 7, 18, 128, 226, 235, 39, 178, 117,
  9, 131, 44, 26, 27, 110, 90, 160, 82, 59, 214, 179, 41, 227, 47, 132,
  83, 209, 0, 237, 32, 252, 177, 91, 106, 203, 190, 57, 74, 76, 88, 207,
  208, 239, 170, 251, 67, 77, 51, 133, 69, 249, 2, 127, 80, 60, 159, 168,
  81, 163, 64, 143, 146, 157, 56, 245, 188, 182, 218, 33, 16, 255, 243, 210,
  205, 12, 19, 236, 95, 151, 68, 23, 196, 167, 126, 61, 100, 93, 25, 115,
  96, 129, 79, 220, 34, 42, 144, 136, 70, 238, 184, 20, 222, 94, 11, 219,
  224, 50, 58, 10, 73, 6, 36, 92, 194, 211, 172, 98, 145, 149, 228, 121,
  231, 200, 55, 109, 141, 213, 78, 169, 108, 86, 244, 234, 101, 122, 174, 8,
  186, 120, 37, 46, 28, 166, 180, 198, 232, 221, 116, 31, 75, 189, 139, 138,
  112, 62, 181, 102, 72, 3, 246, 14, 97, 53, 87, 185, 134, 193, 29, 158,
  225, 248, 152, 17, 105, 217, 142, 148, 155, 30, 135, 233, 206, 85, 40, 223,
  140, 161, 137, 13, 191, 230, 66, 104, 65, 153, 45, 15, 176, 84, 187, 22]

/-- S-box lookup on a byte. -/
def sb (x : Nat) : Nat := sbox_table.getD x 0

/-- Multiplication by x in GF(2^8) with the AES reduction polynomial. -/
def xtime (a : Nat) : Nat :=
  if a < 128 then a * 2 else (a * 2 - 256) ^^^ 0x1b

/-- A 16-byte AES block, column-major (byte i holds row i % 4, column i / 4). -/
structure B16 where
  b0 : Nat
  b1 : Nat
  b2 : Nat
  b3 : Nat
  b4 : Nat
  b5 : Nat
  b6 : Nat
  b7 : Nat
  b8 : Nat
  b9 : Nat
  b10 : Nat
  b11 : Nat
  b12 : Nat
  b13 : Nat
  b14 : Nat
  b15 : Nat
deriving DecidableEq, Repr

def B16.ofList (l : List Nat) : B16 :=
  ⟨l.getD 0 0, l.getD 1 0, l.getD 2 0, l.getD 3 0,
   l.getD 4 0, l.getD 5 0, l.getD 6 0, l.getD 7 0,
   l.getD 8 0, l.getD 9 0, l.getD 10 0, l.getD 11 0,
   l.getD 12 0, l.getD 13 0, l.getD 14 0, l.getD 15 0⟩

def B16.toList (s : B16) : List Nat :=
  [s.b0, s.b1, s.b2, s.b3, s.b4, s.b5, s.b6, s.b7,
   s.b8, s.b9, s.b10, s.b11, s.b12, s.b13, s.b14, s.b15]

/-- Byte-wise XOR of two blocks. -/
def B16.xor (a b : B16) : B16 :=
  ⟨a.b0 ^^^ b.b0, a.b1 ^^^ b.b1, a.b2 ^^^ b.b2, a.b3 ^^^ b.b3,
   a.b4 ^^^ b.b4, a.b5 ^^^ b.b5, a.b6 ^^^ b.b6, a.b7 ^^^ b.b7,
   a.b8 ^^^ b.b8, a.b9 ^^^ b.b9, a.b10 ^^^ b.b10, a.b11 ^^^ b.b11,
   a.b12 ^^^ b.b12, a.b13 ^^^ b.b13, a.b14 ^^^ b.b14, a.b15 ^^^ b.b15⟩

/-- SubBytes. -/
def B16.subBytes (s : B16) : B16 :=
  ⟨sb s.b0, sb s.b1, sb s.b2, sb s.b3, sb s.b4, sb s.b5, sb s.b6, sb s.b7,
   sb s.b8, sb s.b9, sb s.b10, sb s.b11, sb s.b12, sb s.b13, sb s.b14, sb s.b15⟩

/-- ShiftRows on the column-major state. -/
def B16.shiftRows (s : B16) : B16 :=
  ⟨s.b0, s.b5, s.b10, s.b15,
   s.b4, s.b9, s.b14, s.b3,
   s.b8, s.b13, s.b2, s.b7,
   s.b12, s.b1, s.b6, s.b11⟩

/-- MixColumns on one column. -/
def mixCol (a0 a1 a2 a3 : Nat) : Nat × Nat × Nat × Nat :=
  (xtime a0 ^^^ (xtime a1 ^^^ a1) ^^^ a2 ^^^ a3,
   a0 ^^^ xtime a1 ^^^ (xtime a2 ^^^ a2) ^^^ a3,
   a0 ^^^ a1 ^^^ xtime a2 ^^^ (xtime a3 ^^^ a3),
   (xtime a0 ^^^ a0) ^^^ a1 ^^^ a2 ^^^ xtime a3)

/-- MixColumns. -/
def B16.mixColumns (s : B16) : B16 :=
  let c0 := mixCol s.b0 s.b1 s.b2 s.b3
  let c1 := mixCol s.b4 s.b5 s.b6 s.b7
  let c2 := mixCol s.b8 s.b9 s.b10 s.b11
  let c3 := mixCol s.b12 s.b13 s.b14 s.b15
  ⟨c0.1, c0.2.1, c0.2.2.1, c0.2.2.2,
   c1.1, c1.2.1, c1.2.2.1, c1.2.2.2,
   c2.1, c2.2.1, c2.2.2.1, c2.2.2.2,
   c3.1, c3.2.1, c3.2.2.1, c3.2.2.2⟩

/-- AES-128 key schedule: next round key from the previous one. -/
def nextRoundKey (rcon : Nat) (k : B16) : B16 :=
  let t0 := sb k.b13 ^^^ rcon
  let t1 := sb k.b14
  let t2 := sb k.b15
  let t3 := sb k.b12
  let w0 := (k.b0 ^^^ t0, k.b1 ^^^ t1, k.b2 ^^^ t2, k.b3 ^^^ t3)
  let w1 := (k.b4 ^^^ w0.1, k.b5 ^^^ w0.2.1, k.b6 ^^^ w0.2.2.1, k.b7 ^^^ w0.2.2.2)
  let w2 := (k.b8 ^^^ w1.1, k.b9 ^^^ w1.2.1, k.b10 ^^^ w1.2.2.1, k.b11 ^^^ w1.2.2.2)
  let w3 := (k.b12 ^^^ w2.1, k.b13 ^^^ w2.2.1, k.b14 ^^^ w2.2.2.1, k.b15 ^^^ w2.2.2.2)
  ⟨w0.1, w0.2.1, w0.2.2.1, w0.2.2.2,
   w1.1, w1.2.1, w1.2.2.1, w1.2.2.2,
   w2.1, w2.2.1, w2.2.2.1, w2.2.2.2,
   w3.1, w3.2.1, w3.2.2.1, w3.2.2.2⟩

/-- The 11 AES-128 round keys. -/
def roundKeys (key : B16) : List B16 :=
  let rcons := [1, 2, 4, 8, 16, 32, 64, 128, 27, 54]
  (rcons.foldl (fun acc r => nextRoundKey r (acc.headD key) :: acc) [key]).reverse

/-- One full AES round (SubBytes, ShiftRows, MixColumns, AddRoundKey). -/
def aesRound (rk s : B16) : B16 :=
  B16.xor (B16.mixColumns (B16.shiftRows (B16.subBytes s))) rk

/-- The last AES round (no MixColumns). -/
def aesFinalRound (rk s : B16) : B16 :=
  B16.xor (B16.shiftRows (B16.subBytes s)) rk

/-- AES-128 single-block encryption. -/
def aesEncryptB (key block : B16) : B16 :=
  let rks := roundKeys key
  let s0 := B16.xor block (rks.getD 0 key)
  let s9 := (List.range 9).foldl (fun s i => aesRound (rks.getD (i + 1) key) s) s0
  aesFinalRound (rks.getD 10 key) s9

/-- AES-128 single-block encryption on 16-byte lists. -/
def aes_encrypt_block (key block : List Nat) : List Nat :=
  (aesEncryptB (B16.ofList key) (B16.ofList block)).toList

/-! ## CMAC-AES-128 (the `cmac` crate primitive used by `MeshPacket::calculate_mic`) -/

/-- Byte-wise XOR of two 16-byte lists. -/
def xor16 (a b : List Nat) : List Nat := List.zipWith HXor.hXor a b

/-- CMAC subkey doubling: shift the 128-bit value left by one bit and
conditionally XOR the last byte with 0x87 (RFC 4493). -/
def cmacDbl (b : List Nat) : List Nat :=
  let shifted :=
    (List.range 16).map fun i =>
      ((b.getD i 0 * 2) % 256) ^^^ (if i = 15 then 0 else b.getD (i + 1) 0 / 128)
  if b.getD 0 0 ≥ 128 then
    shifted.take 15 ++ [shifted.getD 15 0 ^^^ 0x87]
  else
    shifted

/-- CBC-MAC chaining: `n` more full 16-byte blocks to absorb, then the
masked last block (structural in `n` so that the kernel can evaluate it). -/
def cmacGo (key : List Nat) (k1 k2 : List Nat) : Nat → List Nat → List Nat →
    List Nat
  | 0, x, m =>
    let last :=
      if m.length = 16 then xor16 m k1
      else xor16 (m ++ 0x80 :: List.replicate (15 - m.length) 0) k2
    aes_encrypt_block key (xor16 x last)
  | n + 1, x, m =>
    cmacGo key k1 k2 n (aes_encrypt_block key (xor16 x (m.take 16))) (m.drop 16)

/-- CMAC-AES-128 of an arbitrary message (RFC 4493): a message of length L
is absorbed in `(L - 1) / 16` full blocks followed by the final (possibly
padded) block, matching the "while more than one block remains" loop. -/
def cmac_aes128 (key msg : List Nat) : List Nat :=
  let l := aes_encrypt_block key (List.replicate 16 0)
  let k1 := cmacDbl l
  let k2 := cmacDbl k1
  cmacGo key k1 k2 ((msg.length - 1) / 16) (List.replicate 16 0) msg

/-! ## `aes128.rs`: the `Aes128Key` type and key derivation -/

/-- `Aes128Key` from `aes128.rs`: a 16-byte AES key. -/
structure Aes128Key where
  bytes : List Nat
deriving DecidableEq, Repr

/-- `Aes128Key::null()`. -/
def Aes128Key.null : Aes128Key := ⟨List.replicate 16 0⟩

/-- `get_key` from `aes128.rs`: one AES block encryption of `b` under `key`. -/
def get_key (key : Aes128Key) (b : List Nat) : Aes128Key :=
  ⟨aes_encrypt_block key.bytes b⟩

/-- `get_signing_key`: derive the signing key by encrypting 16 zero bytes. -/
def get_signing_key (key : Aes128Key) : Aes128Key :=
  get_key key (List.replicate 16 0)

/-- `get_encryption_key`: derive the encryption key by encrypting
`0x01` followed by 15 zero bytes. -/
def get_encryption_key (key : Aes128Key) : Aes128Key :=
  get_key key (1 :: List.replicate 15 0)

/-! ## `packets.rs`: the mesh packet codec

Timestamps (`SystemTime`) are modelled as whole seconds since the Unix epoch
(a `Nat`); `as_secs() as u32` is the explicit `% 2 ^ 32`.  The
`UNIX_EPOCH.checked_add` failure branch in the Rust decoders is unreachable
for 32-bit second values and has no counterpart in the `Nat` model. -/

/-- `PayloadType` from `packets.rs`. -/
inductive PayloadType where
  | Uplink
  | Downlink
  | Event
  | Command
deriving DecidableEq, Repr

/-- `PayloadType::from_byte`. -/
def PayloadType.from_byte (b : Nat) : Except String PayloadType :=
  match b with
  | 0x00 => .ok .Uplink
  | 0x01 => .ok .Downlink
  | 0x02 => .ok .Event
  | 0x03 => .ok .Command
  | _ => .error "Unexpected PayloadType"

/-- `PayloadType::to_byte`. -/
def PayloadType.to_byte : PayloadType → Nat
  | .Uplink => 0x00
  | .Downlink => 0x01
  | .Event => 0x02
  | .Command => 0x03

/-- `MHDR` from `packets.rs`. -/
structure MHDR where
  payload_type : PayloadType
  hop_count : Nat
deriving DecidableEq, Repr

/-- `MHDR::from_byte`. -/
def MHDR.from_byte (b : Nat) : Except String MHDR :=
  if b >>> 5 ≠ 0x07 then .error "Invalid MType"
  else do
    let pt ← PayloadType.from_byte ((b >>> 3) &&& 0x03)
    .ok ⟨pt, (b &&& 0x07) + 1⟩

/-- `MHDR::to_byte`. -/
def MHDR.to_byte (m : MHDR) : Except String Nat :=
  if m.hop_count = 0 then .error "Min hop_count is 1"
  else if m.hop_count > 8 then .error "Max hop_count is 8"
  else .ok ((0x07 <<< 5) ||| (m.payload_type.to_byte <<< 3) ||| (m.hop_count - 1))

/-- `UplinkMetadata` from `packets.rs`. -/
structure UplinkMetadata where
  uplink_id : Nat
  dr : Nat
  rssi : Int
  snr : Int
  channel : Nat
deriving DecidableEq, Repr

/-- `UplinkMetadata::from_bytes` (the `[u8; 5]` array is a 5-element list;
any other length cannot occur at the call sites). -/
def UplinkMetadata.from_bytes : List Nat → UplinkMetadata
  | [b0, b1, b2, b3, b4] =>
    let snr0 := b3 &&& 0x3f
    { uplink_id := (b0 * 256 + b1) >>> 4
      dr := b1 &&& 0x0f
      rssi := -(b2 : Int)
      snr := if snr0 > 31 then (snr0 : Int) - 64 else (snr0 : Int)
      channel := b4 }
  | _ => ⟨0, 0, 0, 0, 0⟩

/-- `UplinkMetadata::to_bytes`. -/
def UplinkMetadata.to_bytes (m : UplinkMetadata) : Except String (List Nat) :=
  if m.uplink_id > 4095 then .error "Max uplink_id value is 4095"
  else if m.dr > 15 then .error "Max dr value is 15"
  else if m.rssi > 0 then .error "Max rssi value is 0"
  else if m.rssi < -255 then .error "Min rssi value is -255"
  else if m.snr < -32 then .error "Min snr value is -32"
  else if m.snr > 31 then .error "Max snr value is 31"
  else
    let v := (m.uplink_id <<< 4) % 65536
    .ok [v / 256, (v % 256) ||| m.dr, (-m.rssi).toNat,
      if m.snr < 0 then (m.snr + 64).toNat else m.snr.toNat, m.channel]

/-- `UplinkPayload` from `packets.rs`. -/
structure UplinkPayload where
  metadata : UplinkMetadata
  relay_id : List Nat
  phy_payload : List Nat
deriving DecidableEq, Repr

/-- `UplinkPayload::from_slice`. -/
def UplinkPayload.from_slice (b : List Nat) : Except String UplinkPayload :=
  if b.length < 9 then
    .error "This is not a mesh uplink packet. At least 9 bytes of payload are expected"
  else
    .ok { metadata := UplinkMetadata.from_bytes (b.take 5)
          relay_id := (b.drop 5).take 4
          phy_payload := b.drop 9 }

/-- `UplinkPayload::to_vec`. -/
def UplinkPayload.to_vec (p : UplinkPayload) : Except String (List Nat) := do
  let md ← p.metadata.to_bytes
  .ok (md ++ p.relay_id ++ p.phy_payload)

/-- `encode_freq` from `packets.rs`. -/
def encode_freq (freq0 : Nat) : Except String (List Nat) :=
  let freq := if freq0 ≥ 2400000000 then freq0 / 2 else freq0
  if freq / 100 ≥ 2 ^ 24 then .error "Max frequency value is 2^24 - 1"
  else if freq % 100 ≠ 0 then .error "Frequency must be multiple of 100"
  else
    let v := freq / 100
    .ok [v / 65536 % 256, v / 256 % 256, v % 256]

/-- `decode_freq` from `packets.rs`. -/
def decode_freq (b : List Nat) : Except String Nat :=
  if b.length ≠ 3 then .error "3 bytes expected for frequency"
  else
    let freq := b.getD 0 0 * 65536 + b.getD 1 0 * 256 + b.getD 2 0
    .ok (if freq ≥ 12000000 then freq * 200 else freq * 100)

/-- `DownlinkMetadata` from `packets.rs`. -/
structure DownlinkMetadata where
  uplink_id : Nat
  dr : Nat
  frequency : Nat
  tx_power : Nat
  delay : Nat
deriving DecidableEq, Repr

/-- `DownlinkMetadata::from_bytes` (the `[u8; 6]` array is a 6-element list;
any other length cannot occur at the call sites). The inner `decode_freq`
call is on an exactly-3-byte slice, so its error branch is unreachable (the
Rust code unwraps it). -/
def DownlinkMetadata.from_bytes : List Nat → DownlinkMetadata
  | [b0, b1, b2, b3, b4, b5] =>
    { uplink_id := (b0 * 256 + b1) >>> 4
      dr := b1 &&& 0x0f
      frequency :=
        match decode_freq [b2, b3, b4] with
        | .ok v => v
        | .error _ => 0
      tx_power := (b5 &&& 0xf0) >>> 4
      delay := (b5 &&& 0x0f) + 1 }
  | _ => ⟨0, 0, 0, 0, 0⟩

/-- `DownlinkMetadata::to_bytes`. -/
def DownlinkMetadata.to_bytes (m : DownlinkMetadata) : Except String (List Nat) :=
  if m.uplink_id > 4095 then .error "Max uplink_id value is 4095"
  else if m.dr > 15 then .error "Max dr value is 15"
  else if m.delay < 1 then .error "Min delay value is 1"
  else if m.tx_power > 15 then .error "Max tx_power value is 15"
  else if m.delay > 16 then .error "Max delay value is 16"
  else do
    let fb ← encode_freq m.frequency
    let v := (m.uplink_id <<< 4) % 65536
    .ok [v / 256, (v % 256) ||| m.dr, fb.getD 0 0, fb.getD 1 0, fb.getD 2 0,
      (m.tx_power <<< 4) ||| (m.delay - 1)]

/-- `DownlinkPayload` from `packets.rs`. -/
structure DownlinkPayload where
  metadata : DownlinkMetadata
  relay_id : List Nat
  phy_payload : List Nat
deriving DecidableEq, Repr

/-- `DownlinkPayload::from_slice`. -/
def DownlinkPayload.from_slice (b : List Nat) : Except String DownlinkPayload :=
  if b.length < 10 then .error "At least 10 bytes are expected"
  else
    .ok { metadata := DownlinkMetadata.from_bytes (b.take 6)
          relay_id := (b.drop 6).take 4
          phy_payload := b.drop 10 }

/-- `DownlinkPayload::to_vec`. -/
def DownlinkPayload.to_vec (p : DownlinkPayload) : Except String (List Nat) := do
  let md ← p.metadata.to_bytes
  .ok (md ++ p.relay_id ++ p.phy_payload)

/-- `RelayPath` from `packets.rs`. -/
structure RelayPath where
  relay_id : List Nat
  rssi : Int
  snr : Int
deriving DecidableEq, Repr

/-- `RelayPath::from_bytes` (the `[u8; 6]` array is a 6-element list; any
other length cannot occur at the call sites). -/
def RelayPath.from_bytes : List Nat → RelayPath
  | [b0, b1, b2, b3, b4, b5] =>
    let snr0 := b5 &&& 0x3f
    { relay_id := [b0, b1, b2, b3]
      snr := if snr0 > 31 then (snr0 : Int) - 64 else (snr0 : Int)
      rssi := -(b4 : Int) }
  | _ => ⟨[], 0, 0⟩

/-- `RelayPath::to_bytes`. -/
def RelayPath.to_bytes (p : RelayPath) : Except String (List Nat) :=
  if p.rssi > 0 then .error "Max rssi value is 0"
  else if p.rssi < -255 then .error "Min rssi value is -255"
  else if p.snr < -32 then .error "Min snr value is -32"
  else if p.snr > 31 then .error "Max snr value is 31"
  else
    .ok [p.relay_id.getD 0 0, p.relay_id.getD 1 0, p.relay_id.getD 2 0,
      p.relay_id.getD 3 0, (-p.rssi).toNat,
      if p.snr < 0 then (p.snr + 64).toNat else p.snr.toNat]

/-- `HeartbeatPayload` from `packets.rs`. -/
structure HeartbeatPayload where
  relay_path : List RelayPath
deriving DecidableEq, Repr

/-- Split into consecutive 6-byte chunks (the `chunks(6)` iterator; under the
`% 6 = 0` length guard every chunk is full). -/
def chunksSix : List Nat → List (List Nat)
  | [] => []
  | a :: rest => (a :: rest).take 6 :: chunksSix ((a :: rest).drop 6)
termination_by l => l.length
decreasing_by simp only [List.length_cons, List.length_drop]; omega

/-- `HeartbeatPayload::from_slice`. -/
def HeartbeatPayload.from_slice (b : List Nat) : Except String HeartbeatPayload :=
  if b.length % 6 ≠ 0 then .error "Invalid amount of Relay path bytes"
  else .ok ⟨(chunksSix b).map RelayPath.from_bytes⟩

/-- `HeartbeatPayload::to_vec`. -/
def HeartbeatPayload.to_vec (p : HeartbeatPayload) : Except String (List Nat) :=
  p.relay_path.foldlM (fun acc rp => do
    let b ← rp.to_bytes
    pure (acc ++ b)) []

/-- `Event` from `packets.rs`. -/
inductive Event where
  | Encrypted (b : List Nat)
  | Heartbeat (p : HeartbeatPayload)
  | Proprietary (t : Nat) (v : List Nat)
deriving DecidableEq, Repr

/-- `Event::encode` (`value.len() as u8` is the explicit `% 256`). -/
def Event.encode : Event → Except String (List Nat)
  | .Encrypted v => .ok v
  | .Heartbeat v => do
    let bs ← v.to_vec
    .ok (0x00 :: bs.length % 256 :: bs)
  | .Proprietary t v => .ok (t :: v.length % 256 :: v)

/-- One `Event::decode` step at the cursor: read the type and length bytes,
then the value. Type `0x00` parses as a heartbeat. -/
def decodeOneEvent (t : Nat) (v : List Nat) : Except String Event :=
  if t = 0 then (HeartbeatPayload.from_slice v).map Event.Heartbeat
  else .ok (.Proprietary t v)

/-- The `while cur.position() < b_len` decode loop of `EventPayload`: a failed
`read_exact` consumes the remainder and ends the loop, and a TLV item whose
value fails to parse is logged and skipped. -/
def decodeEvents : List Nat → List Event
  | t :: l :: rest =>
    if rest.length < l then []
    else
      match decodeOneEvent t (rest.take l) with
      | .ok e => e :: decodeEvents (rest.drop l)
      | .error _ => decodeEvents (rest.drop l)
  | _ => []
termination_by l => l.length
decreasing_by simp only [List.length_cons, List.length_drop]; omega

/-- `EventPayload` from `packets.rs`. -/
structure EventPayload where
  timestamp : Nat
  relay_id : List Nat
  events : List Event
deriving DecidableEq, Repr

/-- `EventPayload::from_slice`: 4-byte big-endian timestamp, 4-byte relay id,
and the rest (if non-empty) stashed as a single `Encrypted` item. -/
def EventPayload.from_slice (b : List Nat) : Except String EventPayload :=
  if b.length < 8 then
    .error "This is not a mesh event packet. At least 8 bytes of payload are expected"
  else
    .ok { timestamp := b.getD 0 0 * 16777216 + b.getD 1 0 * 65536 +
            b.getD 2 0 * 256 + b.getD 3 0
          relay_id := (b.drop 4).take 4
          events := if b.drop 8 = [] then [] else [.Encrypted (b.drop 8)] }

/-- `EventPayload::to_vec`. -/
def EventPayload.to_vec (p : EventPayload) : Except String (List Nat) := do
  let ts := p.timestamp % 4294967296
  let evs ← p.events.foldlM (fun acc e => do
    let b ← e.encode
    pure (acc ++ b)) []
  .ok ([ts / 16777216 % 256, ts / 65536 % 256, ts / 256 % 256, ts % 256] ++
    p.relay_id ++ evs)

/-- `encrypt_events_commands` from `packets.rs`: the XOR counter-mode blob
transform. The only Rust error source is a pre-epoch timestamp, which the
`Nat` timestamp model excludes, so the function is total here. -/
def encrypt_events_commands (key : Aes128Key) (is_command : Bool)
    (relay_id : List Nat) (timestamp : Nat) (payload : List Nat) : List Nat :=
  if payload.isEmpty then []
  else
    let b := payload ++ List.replicate (16 - payload.length % 16) 0
    let ts := timestamp % 4294967296
    let ablock (i : Nat) : List Nat :=
      [0x01, 0, 0, 0, 0, if is_command then 0x01 else 0,
       relay_id.getD 0 0, relay_id.getD 1 0, relay_id.getD 2 0, relay_id.getD 3 0,
       ts / 16777216 % 256, ts / 65536 % 256, ts / 256 % 256, ts % 256,
       0, (i + 1) % 256]
    let ks := List.flatten ((List.range (b.length / 16)).map
      fun i => aes_encrypt_block key.bytes (ablock i))
    (List.zipWith HXor.hXor b ks).take payload.length

/-- `EventPayload::encrypt`. -/
def EventPayload.encrypt (pl : EventPayload) (key : Aes128Key) :
    Except String EventPayload :=
  if pl.events.isEmpty then .ok pl
  else do
    let b ← pl.events.foldlM (fun acc e => do
      let x ← e.encode
      pure (acc ++ x)) []
    .ok { pl with events :=
      [.Encrypted (encrypt_events_commands key false pl.relay_id pl.timestamp b)] }

/-- `EventPayload::decrypt`. -/
def EventPayload.decrypt (pl : EventPayload) (key : Aes128Key) :
    Except String EventPayload :=
  if pl.events.isEmpty then .ok pl
  else if pl.events.length ≠ 1 then .error "Exactly 1 event item expected"
  else
    match pl.events with
    | [.Encrypted b] =>
      .ok { pl with events :=
        decodeEvents (encrypt_events_commands key false pl.relay_id pl.timestamp b) }
    | _ => .error "Encrypted event expected"

/-- `Command` from `packets.rs`. -/
inductive Command where
  | Encrypted (b : List Nat)
  | Proprietary (t : Nat) (v : List Nat)
deriving DecidableEq, Repr

/-- `Command::encode`. -/
def Command.encode : Command → Except String (List Nat)
  | .Encrypted v => .ok v
  | .Proprietary t v => .ok (t :: v.length % 256 :: v)

/-- The `Command::decode` loop (every TLV item decodes as proprietary). -/
def decodeCommands : List Nat → List Command
  | t :: l :: rest =>
    if rest.length < l then []
    else .Proprietary t (rest.take l) :: decodeCommands (rest.drop l)
  | _ => []
termination_by l => l.length
decreasing_by simp only [List.length_cons, List.length_drop]; omega

/-- `CommandPayload` from `packets.rs`. -/
structure CommandPayload where
  timestamp : Nat
  relay_id : List Nat
  commands : List Command
deriving DecidableEq, Repr

/-- `CommandPayload::from_slice`. -/
def CommandPayload.from_slice (b : List Nat) : Except String CommandPayload :=
  if b.length < 8 then
    .error "This is not a mesh command packet : at least 8 bytes of payload are expected"
  else
    .ok { timestamp := b.getD 0 0 * 16777216 + b.getD 1 0 * 65536 +
            b.getD 2 0 * 256 + b.getD 3 0
          relay_id := (b.drop 4).take 4
          commands := if b.drop 8 = [] then [] else [.Encrypted (b.drop 8)] }

/-- `CommandPayload::to_vec`. -/
def CommandPayload.to_vec (p : CommandPayload) : Except String (List Nat) := do
  let ts := p.timestamp % 4294967296
  let cs ← p.commands.foldlM (fun acc c => do
    let b ← c.encode
    pure (acc ++ b)) []
  .ok ([ts / 16777216 % 256, ts / 65536 % 256, ts / 256 % 256, ts % 256] ++
    p.relay_id ++ cs)

/-- `CommandPayload::encrypt`. -/
def CommandPayload.encrypt (pl : CommandPayload) (key : Aes128Key) :
    Except String CommandPayload :=
  if pl.commands.isEmpty then .ok pl
  else do
    let b ← pl.commands.foldlM (fun acc c => do
      let x ← c.encode
      pure (acc ++ x)) []
    .ok { pl with commands :=
      [.Encrypted (encrypt_events_commands key true pl.relay_id pl.timestamp b)] }

/-- `CommandPayload::decrypt`. -/
def CommandPayload.decrypt (pl : CommandPayload) (key : Aes128Key) :
    Except String CommandPayload :=
  if pl.commands.isEmpty then .ok pl
  else if pl.commands.length ≠ 1 then .error "Exactly 1 command item expected"
  else
    match pl.commands with
    | [.Encrypted b] =>
      .ok { pl with commands :=
        decodeCommands (encrypt_events_commands key true pl.relay_id pl.timestamp b) }
    | _ => .error "Encrypted command exepcted"

/-- `Payload` from `packets.rs`. -/
inductive Payload where
  | Uplink (p : UplinkPayload)
  | Downlink (p : DownlinkPayload)
  | Event (p : EventPayload)
  | Command (p : CommandPayload)
deriving DecidableEq, Repr

/-- The payload-variant body serialization used by `MeshPacket::to_vec` and
`MeshPacket::mic_bytes`. -/
def Payload.to_vec : Payload → Except String (List Nat)
  | .Uplink v => v.to_vec
  | .Downlink v => v.to_vec
  | .Event v => v.to_vec
  | .Command v => v.to_vec

/-- `MeshPacket` from `packets.rs`. -/
structure MeshPacket where
  mhdr : MHDR
  payload : Payload
  mic : Option (List Nat)
deriving DecidableEq, Repr

/-- `MeshPacket::from_slice`. -/
def MeshPacket.from_slice (b : List Nat) : Except String MeshPacket :=
  let len := b.length
  if len = 0 then .error "Input is empty"
  else if len < 5 then .error "Not enough bytes to decode mhdr + mic"
  else do
    let mhdr ← MHDR.from_byte (b.getD 0 0)
    let body := (b.drop 1).take (len - 5)
    let payload ←
      match mhdr.payload_type with
      | .Uplink => (UplinkPayload.from_slice body).map Payload.Uplink
      | .Downlink => (DownlinkPayload.from_slice body).map Payload.Downlink
      | .Event => (EventPayload.from_slice body).map Payload.Event
      | .Command => (CommandPayload.from_slice body).map Payload.Command
    .ok { mhdr := mhdr, payload := payload, mic := some (b.drop (len - 4)) }

/-- `MeshPacket::to_vec`. -/
def MeshPacket.to_vec (p : MeshPacket) : Except String (List Nat) := do
  let h ← p.mhdr.to_byte
  let body ← p.payload.to_vec
  match p.mic with
  | some mic => .ok (h :: body ++ mic)
  | none => .error "MIC is None"

/-- `MeshPacket::mic_bytes`: header byte plus variant body. -/
def MeshPacket.mic_bytes (p : MeshPacket) : Except String (List Nat) := do
  let h ← p.mhdr.to_byte
  let body ← p.payload.to_vec
  .ok (h :: body)

/-- `MeshPacket::calculate_mic`: first 4 bytes of the CMAC over `mic_bytes`. -/
def MeshPacket.calculate_mic (p : MeshPacket) (key : Aes128Key) :
    Except String (List Nat) := do
  let mb ← p.mic_bytes
  let cf := cmac_aes128 key.bytes mb
  if cf.length < 4 then .error "cmac_f is less than 4 bytes"
  else .ok (cf.take 4)

/-- `MeshPacket::set_mic`. -/
def MeshPacket.set_mic (p : MeshPacket) (key : Aes128Key) :
    Except String MeshPacket := do
  let m ← p.calculate_mic key
  .ok { p with mic := some m }

/-- `MeshPacket::validate_mic`: an absent MIC is an error; a present MIC is
compared against the computed CMAC. -/
def MeshPacket.validate_mic (p : MeshPacket) (key : Aes128Key) :
    Except String Bool :=
  match p.mic with
  | some mic =>
    match p.calculate_mic key with
    | .ok c => .ok (mic == c)
    | .error e => .error e
  | none => .error "MIC is None"

/-- `MeshPacket::encrypt`. -/
def MeshPacket.encrypt (p : MeshPacket) (key : Aes128Key) :
    Except String MeshPacket :=
  match p.payload with
  | .Event pl =>
    match pl.encrypt key with
    | .ok e => .ok { p with payload := .Event e }
    | .error e => .error e
  | .Command pl =>
    match pl.encrypt key with
    | .ok c => .ok { p with payload := .Command c }
    | .error e => .error e
  | _ => .ok p

/-- `MeshPacket::decrypt`. -/
def MeshPacket.decrypt (p : MeshPacket) (key : Aes128Key) :
    Except String MeshPacket :=
  match p.payload with
  | .Event pl =>
    match pl.decrypt key with
    | .ok e => .ok { p with payload := .Event e }
    | .error e => .error e
  | .Command pl =>
    match pl.decrypt key with
    | .ok c => .ok { p with payload := .Command c }
    | .error e => .error e
  | _ => .ok p

/-! ## `cache.rs`: the dedup cache

`VecDeque` is modelled as a list whose head is the front (oldest entry);
`push_back` appends, `pop_front` drops the head. -/

/-- `Cache` from `cache.rs`. -/
structure Cache (T : Type) where
  deque : List T
  size : Nat

/-- `Cache::new`. -/
def Cache.new (T : Type) (size : Nat) : Cache T := ⟨[], size⟩

/-- `Cache::add`: returns `(added?, new cache)`. A value already contained is
not re-added; at capacity the front (oldest) entry is popped before the
`push_back`. -/
def Cache.add {T : Type} [DecidableEq T] (c : Cache T) (value : T) :
    Bool × Cache T :=
  if value ∈ c.deque then (false, c)
  else
    let d := if c.deque.length = c.size then c.deque.tail else c.deque
    (true, ⟨d ++ [value], c.size⟩)

/-! ## `config.rs`: code rate serialization and the configuration model -/

/-- `Modulation` from `config.rs`. -/
inductive Modulation where
  | LORA
  | FSK
deriving DecidableEq, Repr

/-- `CodeRate` from `config.rs`. -/
inductive CodeRate where
  | Cr45
  | Cr46
  | Cr47
  | Cr48
  | Cr38
  | Cr26
  | Cr14
  | Cr16
  | Cr56
  | CrLi45
  | CrLi46
  | CrLi48
deriving DecidableEq, Repr

/-- The `Serialize` impl for `CodeRate`: the string each variant serializes
to. -/
def CodeRate.serialize : CodeRate → String
  | .Cr45 => "4/5"
  | .Cr46 => "4/6"
  | .Cr47 => "4/7"
  | .Cr48 => "4/8"
  | .Cr38 => "3/8"
  | .Cr26 => "2/6"
  | .Cr14 => "1/4"
  | .Cr16 => "1/6"
  | .Cr56 => "5/6"
  | .CrLi45 => "4/5LI"
  | .CrLi46 => "4/6LI"
  | .CrLi48 => "4/5LI"

/-- The `Deserialize` impl for `CodeRate`, with its aliases. -/
def CodeRate.deserialize (s : String) : Except String CodeRate :=
  if s = "4/5" then .ok .Cr45
  else if s = "4/6" ∨ s = "2/3" then .ok .Cr46
  else if s = "4/7" then .ok .Cr47
  else if s = "4/8" ∨ s = "2/4" ∨ s = "1/2" then .ok .Cr48
  else if s = "3/8" then .ok .Cr38
  else if s = "2/6" ∨ s = "1/3" then .ok .Cr26
  else if s = "1/4" then .ok .Cr14
  else if s = "1/6" then .ok .Cr16
  else if s = "5/6" then .ok .Cr56
  else if s = "4/5LI" then .ok .CrLi45
  else if s = "4/6LI" then .ok .CrLi46
  else if s = "4/8LI" then .ok .CrLi48
  else .error "Unexpected code_rate"

/-- `DataRate` from `config.rs`. -/
structure DataRate where
  modulation : Modulation
  spreading_factor : Nat
  bandwidth : Nat
  code_rate : Option CodeRate
  bitrate : Nat
deriving DecidableEq, Repr

/-- `Mappings` from `config.rs`. -/
structure Mappings where
  channels : List Nat
  tx_power : List Int
  data_rates : List DataRate

/-- The `[mesh]` configuration section (fields used by the embedded code;
`root_key` is referenced by `mesh.rs` and `events.rs`). -/
structure MeshSection where
  root_key : Aes128Key
  signing_key : Aes128Key
  border_gateway : Bool
  border_gateway_ignore_direct_uplinks : Bool
  max_hop_count : Nat

/-- `Configuration` (the fields the embedded claims depend on). -/
structure Configuration where
  mesh : MeshSection
  mappings : Mappings

/-! ## `helpers.rs`: mapping-table helpers -/

/-- `tx_power_to_index` from `helpers.rs`, with its enumerate-and-replace
loop embedded verbatim: a configured power `p ≤ tx_power` replaces the
current candidate whenever the candidate value is `< tx_power` (the
requested power, not `p`). -/
def tx_power_to_index (conf : Configuration) (tx_power : Int) :
    Except String Nat :=
  let out := conf.mappings.tx_power.enum.foldl
    (fun out ip =>
      if ip.2 ≤ tx_power then
        match out with
        | some v =>
          if conf.mappings.tx_power.getD v 0 < tx_power then some ip.1 else some v
        | none => some ip.1
      else out)
    none
  match out with
  | some v => .ok v
  | none => .error "No TX Power equal or lower than requested"

/-- `index_to_tx_power` from `helpers.rs`. -/
def index_to_tx_power (conf : Configuration) (idx : Nat) : Except String Int :=
  match conf.mappings.tx_power.get? idx with
  | some v => .ok v
  | none => .error "TX Power index does not exist"

/-- `dr_to_modulation` from `helpers.rs`: a bounded lookup into
`mappings.data_rates` (the subsequent repackaging into a radio modulation
message is a field-for-field copy and is represented by the `DataRate`
itself). -/
def dr_to_modulation (conf : Configuration) (dr : Nat) :
    Except String DataRate :=
  match conf.mappings.data_rates.get? dr with
  | some v => .ok v
  | none => .error "Data-rate does not map to a modulation"

/-! ## `backend.rs`: the device-radio event dispatch -/

/-- The decision taken by `handle_event_msg` for an `UplinkFrame` event. -/
inductive UplinkDisposition where
  | discardedCrc
  | discardedProprietary
  | discardedIgnoreDirect
  | discardedFilter
  | proxied
  | relayed
deriving DecidableEq, Repr

/-- The uplink-frame branch of `handle_event_msg` in `backend.rs`, including
the final dispatch through `mesh::handle_uplink` (border gateways proxy the
frame, relay gateways encapsulate and relay it). The DevAddr/JoinEUI filter
library is external and enters as the `filters_match` flag. -/
def handle_event_msg_uplink (border_gateway : Bool)
    (border_gateway_ignore_direct_uplinks : Bool) (crc_ok : Bool)
    (phy_payload : List Nat) (filters_match : Bool) : UplinkDisposition :=
  if ¬ crc_ok then .discardedCrc
  else if phy_payload.headD 0 &&& 0xe0 = 0xe0 then .discardedProprietary
  else if border_gateway_ignore_direct_uplinks then .discardedIgnoreDirect
  else if ¬ filters_match then .discardedFilter
  else if border_gateway then .proxied
  else .relayed

/-! ## `commands.rs`: command execution with the timestamp guard -/

/-- `execute_commands` from `commands.rs`, as a step on the
`LAST_TIMESTAMP` state: the result is the updated state and either the
commands handed to the executor or the rejection error. The actual spawning
of the configured processes (and the response events built from their
stdout) is external process I/O. -/
def execute_commands_step (last : Option Nat) (pl : CommandPayload) :
    Option Nat × Except String (List Command) :=
  match last with
  | some ts =>
    if ts ≥ pl.timestamp then
      (last, .error "Command timestamp did not increment compared to previous command payload")
    else (some pl.timestamp, .ok pl.commands)
  | none => (some pl.timestamp, .ok pl.commands)

/-! ## `events.rs`: the periodic emitter -/

/-- The signing-key selection written out in `mesh.rs` (in `handle_mesh`,
`send_mesh_command`, `relay_mesh_packet` and `relay_uplink_lora_packet`):
use the legacy explicit `signing_key` when non-zero, otherwise derive it
from `root_key`. -/
def mesh_signing_key (conf : Configuration) : Aes128Key :=
  if conf.mesh.signing_key ≠ Aes128Key.null then conf.mesh.signing_key
  else get_signing_key conf.mesh.root_key

/-- `send_events` from `events.rs`: builds the Event mesh packet, encrypts
it and sets its MIC with the keys the code passes (`get_encryption_key`
applied to `Aes128Key::null()` and `get_signing_key` applied to
`conf.mesh.signing_key`). The surrounding downlink-frame transmission is
radio plumbing and not part of the packet construction. -/
def send_events (conf : Configuration) (relay_id : List Nat) (now : Nat)
    (events : List Event) : Except String MeshPacket := do
  let packet : MeshPacket :=
    { mhdr := { payload_type := .Event, hop_count := 1 }
      payload := .Event { timestamp := now, relay_id := relay_id, events := events }
      mic := none }
  let p1 ← packet.encrypt (get_encryption_key Aes128Key.null)
  p1.set_mic (get_signing_key conf.mesh.signing_key)

/-- `report_heartbeat` from `events.rs`: a single heartbeat event with an
empty relay path, sent through `send_events`. -/
def report_heartbeat (conf : Configuration) (relay_id : List Nat) (now : Nat) :
    Except String MeshPacket :=
  send_events conf relay_id now [.Heartbeat ⟨[]⟩]

/-! ## `mesh.rs`: the relay state machine for received mesh packets -/

/-- What `relay_mesh_packet` does with a packet on a Relay Gateway. -/
inductive RelayAction where
  | dropped
  | downlinkUnwrapped (phy : List Nat) (frequency : Nat) (power : Int)
      (delay : Nat) (dr : DataRate) (context : List Nat)
  | commandsExecuted (newLast : Nat) (executed : List Command)
  | transmitted (p : MeshPacket)
deriving DecidableEq, Repr

/-- The encrypt / re-sign / hop-limit-check tail of `relay_mesh_packet`,
applied to the packet with the already incremented hop count. -/
def relay_sign_and_check (conf : Configuration) (p1 : MeshPacket) :
    Except String RelayAction := do
  let p2 ← p1.encrypt (get_encryption_key conf.mesh.root_key)
  let p3 ← p2.set_mic (mesh_signing_key conf)
  if p3.mhdr.hop_count > conf.mesh.max_hop_count then
    .error "Max hop count exceeded"
  else .ok (.transmitted p3)

/-- The shared re-relay tail of `relay_mesh_packet`: increment the hop
count, re-encrypt, re-sign, and hand the packet to the mesh radio unless
the new hop count exceeds `max_hop_count`. -/
def relay_retransmit (conf : Configuration) (packet : MeshPacket) :
    Except String RelayAction :=
  relay_sign_and_check conf
    { packet with mhdr := { packet.mhdr with hop_count := packet.mhdr.hop_count + 1 } }

/-- `relay_mesh_packet` from `mesh.rs`. `relay_id` is this gateway's relay
id, `lastCmdTs` the `LAST_TIMESTAMP` command state, `uplink_context` the
`UPLINK_CONTEXT` store, and `rx_rssi`/`rx_snr` the reception metadata used
to extend heartbeat relay paths. -/
def relay_mesh_packet (conf : Configuration) (relay_id : List Nat)
    (lastCmdTs : Option Nat) (uplink_context : Nat → Option (List Nat))
    (rx_rssi rx_snr : Int) (packet : MeshPacket) : Except String RelayAction :=
  match packet.payload with
  | .Uplink pl =>
    if pl.relay_id = relay_id then .ok .dropped
    else relay_retransmit conf packet
  | .Downlink pl =>
    if pl.relay_id = relay_id then do
      let power ← index_to_tx_power conf pl.metadata.tx_power
      let dr ← dr_to_modulation conf pl.metadata.dr
      let ctx ←
        match uplink_context pl.metadata.uplink_id with
        | some c => Except.ok c
        | none => Except.error "No uplink context for uplink_id"
      .ok (.downlinkUnwrapped pl.phy_payload pl.metadata.frequency power
        pl.metadata.delay dr ctx)
    else relay_retransmit conf packet
  | .Event pl =>
    if pl.relay_id = relay_id then .ok .dropped
    else
      let newEvents := pl.events.map fun e =>
        match e with
        | .Heartbeat v =>
          Event.Heartbeat ⟨v.relay_path ++ [⟨relay_id, rx_rssi, rx_snr⟩]⟩
        | other => other
      relay_retransmit conf
        { packet with payload := .Event { pl with events := newEvents } }
  | .Command pl =>
    if pl.relay_id = relay_id then
      match execute_commands_step lastCmdTs pl with
      | (_, .error e) => .error e
      | (_, .ok cmds) => .ok (.commandsExecuted pl.timestamp cmds)
    else relay_retransmit conf packet

/-! ## Helper lemmas -/

/-- Decidable equality of `Except` values. -/
def exceptDecEq {ε α : Type} [DecidableEq ε] [DecidableEq α] :
    (a b : Except ε α) → Decidable (a = b)
  | .ok a, .ok b =>
    match decEq a b with
    | isTrue h => isTrue (by rw [h])
    | isFalse h => isFalse (by intro hh; cases hh; exact h rfl)
  | .ok _, .error _ => isFalse (by intro h; cases h)
  | .error _, .ok _ => isFalse (by intro h; cases h)
  | .error e, .error f =>
    match decEq e f with
    | isTrue h => isTrue (by rw [h])
    | isFalse h => isFalse (by intro hh; cases hh; exact h rfl)

instance {ε α : Type} [DecidableEq ε] [DecidableEq α] :
    DecidableEq (Except ε α) := exceptDecEq

/-- A configuration whose tx-power mapping table is `[10, 5]`. -/
def txPowerConfExample : Configuration :=
  { mesh :=
      { root_key := Aes128Key.null
        signing_key := Aes128Key.null
        border_gateway := false
        border_gateway_ignore_direct_uplinks := false
        max_hop_count := 1 }
    mappings := { channels := [], tx_power := [10, 5], data_rates := [] } }

/-- A MIC-less uplink mesh packet. -/
def micNonePacket : MeshPacket where
  mhdr := { payload_type := .Uplink, hop_count := 1 }
  payload := Payload.Uplink ⟨⟨0, 0, 0, 0, 0⟩, [0, 0, 0, 0], []⟩
  mic := none

/-- The configuration used to exhibit the `send_events` key bug: a non-zero
`root_key` and a non-zero legacy `signing_key`. -/
def c2Conf : Configuration :=
  { mesh :=
      { root_key := ⟨1 :: List.replicate 15 0⟩
        signing_key := ⟨2 :: List.replicate 15 0⟩
        border_gateway := false
        border_gateway_ignore_direct_uplinks := false
        max_hop_count := 1 }
    mappings := ⟨[], [], []⟩ }

/-- The `send_events` packet construction keyed per the documented
derivation rule, i.e. exactly as `mesh.rs` keys every other packet:
encryption key derived from `root_key`, MIC key per `mesh_signing_key`. -/
def send_events_spec_keys (conf : Configuration) (relay_id : List Nat)
    (now : Nat) (events : List Event) : Except String MeshPacket := do
  let packet : MeshPacket :=
    { mhdr := { payload_type := .Event, hop_count := 1 }
      payload := .Event { timestamp := now, relay_id := relay_id, events := events }
      mic := none }
  let p1 ← packet.encrypt (get_encryption_key conf.mesh.root_key)
  p1.set_mic (mesh_signing_key conf)

/-- The relay id carried by the payload variant of a packet. -/
def payload_relay_id : Payload → List Nat
  | .Uplink pl => pl.relay_id
  | .Downlink pl => pl.relay_id
  | .Event pl => pl.relay_id
  | .Command pl => pl.relay_id

/-- The hop-3 uplink packet from another relay used as the C5 witness. -/
def hopLimitPacket : MeshPacket where
  mhdr := { payload_type := .Uplink, hop_count := 3 }
  payload := Payload.Uplink ⟨⟨1, 0, -60, 6, 2⟩, [9, 9, 9, 9], [1]⟩
  mic := some [0, 0, 0, 0]

/-- The max-hop-3 configuration used as the C5 witness. -/
def hopLimitConf : Configuration :=
  { mesh :=
      { root_key := Aes128Key.null
        signing_key := Aes128Key.null
        border_gateway := false
        border_gateway_ignore_direct_uplinks := false
        max_hop_count := 3 }
    mappings := ⟨[], [], []⟩ }

/-- The frequencies that survive the `encode_freq`/`decode_freq` pair:
below 1.2 GHz with the 100 Hz step, or in the 2.4 GHz window with the
200 Hz step. Frequencies in [1.2 GHz, 2.4 GHz) either decode to twice
their value or fail to encode. -/
def freq_stable (f : Nat) : Bool :=
  (decide (f % 100 = 0) && decide (f < 1200000000)) ||
  (decide (2400000000 ≤ f) && decide (f % 200 = 0) && decide (f < 3355443200))

/-- The transport form of an Event item list (what `from_slice` can ever
produce): empty, or a single non-empty `Encrypted` blob. -/
def events_transport_shape : List Event → Bool
  | [] => true
  | [Event.Encrypted b] => decide (b ≠ [])
  | _ => false

/-- The transport form of a Command item list. -/
def commands_transport_shape : List Command → Bool
  | [] => true
  | [Command.Encrypted b] => decide (b ≠ [])
  | _ => false

/-- In-range metadata for an uplink payload. -/
def UplinkMetadata.wf (m : UplinkMetadata) : Bool :=
  decide (m.uplink_id ≤ 4095) && decide (m.dr ≤ 15) &&
  decide (-255 ≤ m.rssi) && decide (m.rssi ≤ 0) &&
  decide (-32 ≤ m.snr) && decide (m.snr ≤ 31) && decide (m.channel ≤ 255)

/-- In-range metadata for a downlink payload, with a round-trip-stable
frequency. -/
def DownlinkMetadata.wf (m : DownlinkMetadata) : Bool :=
  decide (m.uplink_id ≤ 4095) && decide (m.dr ≤ 15) &&
  decide (m.tx_power ≤ 15) && decide (1 ≤ m.delay) && decide (m.delay ≤ 16) &&
  freq_stable m.frequency

/-- Well-formedness of a mesh packet for the round-trip theorem: hop count
in 1..=8, a 4-byte MIC present, the payload variant matching the header
type, field values in their documented ranges, and Event/Command item lists
in transport form. -/
def MeshPacket.wf (p : MeshPacket) : Bool :=
  decide (1 ≤ p.mhdr.hop_count) && decide (p.mhdr.hop_count ≤ 8) &&
  (match p.mic with
   | some m => decide (m.length = 4)
   | none => false) &&
  (match p.mhdr.payload_type, p.payload with
   | .Uplink, .Uplink pl => decide (pl.relay_id.length = 4) && pl.metadata.wf
   | .Downlink, .Downlink pl => decide (pl.relay_id.length = 4) && pl.metadata.wf
   | .Event, .Event pl =>
     decide (pl.relay_id.length = 4) && decide (pl.timestamp < 4294967296) &&
     events_transport_shape pl.events
   | .Command, .Command pl =>
     decide (pl.relay_id.length = 4) && decide (pl.timestamp < 4294967296) &&
     commands_transport_shape pl.commands
   | _, _ => false)

/-- Range constraints on a heartbeat relay-path entry. -/
def RelayPath.wf (rp : RelayPath) : Bool :=
  decide (rp.relay_id.length = 4) && decide (-255 ≤ rp.rssi) &&
  decide (rp.rssi ≤ 0) && decide (-32 ≤ rp.snr) && decide (rp.snr ≤ 31)

/-- A downlink packet with the in-range frequency 1.3 GHz, between the two
bands the frequency codec supports. -/
def freqBugPacket : MeshPacket where
  mhdr := ⟨.Downlink, 1⟩
  payload := .Downlink ⟨⟨1, 0, 1300000000, 0, 1⟩, [1, 2, 3, 4], [0]⟩
  mic := some [0, 0, 0, 0]

/-- An event packet whose item list holds a decoded TLV item (a heartbeat)
rather than a single encrypted blob. -/
def tlvBugPacket : MeshPacket where
  mhdr := ⟨.Event, 1⟩
  payload := .Event ⟨0, [1, 2, 3, 4], [.Heartbeat ⟨[]⟩]⟩
  mic := some [0, 0, 0, 0]

/-- A well-formed downlink packet used to witness the round trip. -/
def wfRoundtripPacket : MeshPacket where
  mhdr := ⟨.Downlink, 3⟩
  payload := .Downlink ⟨⟨1, 2, 868100000, 5, 2⟩, [1, 2, 3, 4], [7, 8]⟩
  mic := some [9, 9, 9, 9]

/-- The keystream of `encrypt_events_commands` for a padded length `L`,
named for the involution proof. -/
def eecKeystream (key : Aes128Key) (is_command : Bool) (relay_id : List Nat)
    (timestamp L : Nat) : List Nat :=
  List.flatten ((List.range (L / 16)).map fun i =>
    aes_encrypt_block key.bytes
      [0x01, 0, 0, 0, 0, if is_command then 0x01 else 0,
       relay_id.getD 0 0, relay_id.getD 1 0, relay_id.getD 2 0, relay_id.getD 3 0,
       timestamp % 4294967296 / 16777216 % 256, timestamp % 4294967296 / 65536 % 256,
       timestamp % 4294967296 / 256 % 256, timestamp % 4294967296 % 256,
       0, (i + 1) % 256])

/-- A decodable Event item: a decoded TLV whose value fits one length byte
(a heartbeat with in-range path entries, or a proprietary item with a
non-zero type byte). -/
def Event.decodable : Event → Bool
  | .Encrypted _ => false
  | .Heartbeat hb => hb.relay_path.all RelayPath.wf &&
      decide (6 * hb.relay_path.length ≤ 255)
  | .Proprietary t v => decide (t ≠ 0) && decide (v.length ≤ 255)

/-- A decodable Command item: a decoded TLV whose value fits one length
byte. -/
def Command.decodable : Command → Bool
  | .Encrypted _ => false
  | .Proprietary _ v => decide (v.length ≤ 255)

/-- A concrete key for the encrypt-decrypt witness. -/
def c6Key : Aes128Key := ⟨[0, 1, 2, 3, 4, 5, 6, 7, 8, 9, 10, 11, 12, 13, 14, 15]⟩

/-- A concrete Event payload with decodable items for the witness. -/
def c6Event : EventPayload :=
  ⟨5, [1, 2, 3, 4], [.Heartbeat ⟨[⟨[1, 2, 3, 4], -10, 3⟩]⟩, .Proprietary 2 [7]]⟩

/-- A concrete Command payload with decodable items for the witness. -/
def c6Command : CommandPayload := ⟨5, [1, 2, 3, 4], [.Proprietary 1 [9]]⟩

/-- Monadic bind on `Except` applied to a success. -/
@[simp]
theorem ebind_ok {ε α β : Type} (a : α) (f : α → Except ε β) :
    (Except.ok a : Except ε α) >>= f = f a := rfl

/-- Monadic bind on `Except` applied to a failure. -/
@[simp]
theorem ebind_error {ε α β : Type} (e : ε) (f : α → Except ε β) :
    (Except.error e : Except ε α) >>= f = Except.error e := rfl

/-- `pure` on `Except` is `ok`. -/
@[simp]
theorem epure_eq_ok {ε α : Type} (a : α) :
    (pure a : Except ε α) = Except.ok a := rfl

/-- `Cache.add` never changes the capacity field. -/
theorem Cache.add_size {T : Type} [DecidableEq T] (c : Cache T) (x : T) :
    ((c.add x).2).size = c.size := by
  unfold Cache.add
  split <;> simp

/-- `Cache.add` keeps the entry count within a positive capacity. -/
theorem Cache.add_length_le {T : Type} [DecidableEq T] (c : Cache T) (x : T)
    (hpos : 0 < c.size) (h : c.deque.length ≤ c.size) :
    ((c.add x).2).deque.length ≤ c.size := by
  unfold Cache.add
  split
  · simpa using h
  · by_cases hfull : c.deque.length = c.size
    · simp only [hfull, if_pos rfl]
      cases hd : c.deque with
      | nil => simp [hd] at hfull; omega
      | cons a l =>
        have : c.deque.length = l.length + 1 := by simp [hd]
        simp [hd]
        omega
    · simp only [if_neg hfull]
      simp
      omega

/-- Folding `Cache.add` over any operation list preserves the bound. -/
theorem Cache.foldl_add_length_le {T : Type} [DecidableEq T] (ops : List T)
    (c : Cache T) (hpos : 0 < c.size) (h : c.deque.length ≤ c.size) :
    (ops.foldl (fun acc y => (acc.add y).2) c).deque.length ≤ c.size := by
  induction ops generalizing c with
  | nil => simpa using h
  | cons a l ih =>
    have hsz := Cache.add_size c a
    have h2 : ((c.add a).2).deque.length ≤ ((c.add a).2).size := by
      rw [hsz]; exact Cache.add_length_le c a hpos h
    have hp2 : 0 < ((c.add a).2).size := by rw [hsz]; exact hpos
    have := ih ((c.add a).2) hp2 h2
    rw [hsz] at this
    simpa using this

/-! ## Claim theorems -/

/-- C7: `Cache::add` returns true exactly when the value is not yet
contained; at capacity the oldest (front) entry is evicted before the new
entry is appended; and from the capacity-64 cache used by `mesh.rs`, no
sequence of adds ever grows the cache beyond 64 entries. -/
theorem cache_add_spec (x : Nat) (c : Cache Nat) :
    ((c.add x).1 = true ↔ x ∉ c.deque) ∧
    (c.deque.length = c.size → x ∉ c.deque →
      ((c.add x).2).deque = c.deque.tail ++ [x]) ∧
    (∀ ops : List Nat,
      (ops.foldl (fun acc y => (acc.add y).2) (Cache.new Nat 64)).deque.length ≤ 64) := by
  refine ⟨?_, ?_, ?_⟩
  · unfold Cache.add
    split <;> simp_all
  · intro hfull hmem
    unfold Cache.add
    simp [hmem, hfull]
  · intro ops
    have := Cache.foldl_add_length_le ops (Cache.new Nat 64)
      (by simp [Cache.new]) (by simp [Cache.new])
    simpa [Cache.new] using this

/-- Witness for C7 at a concrete input: adding `3` to the fresh capacity-64
cache reports it as new. -/
theorem cache_add_spec_witness :
    (((Cache.new Nat 64).add 3).1 = true) :=
  (cache_add_spec 3 (Cache.new Nat 64)).1.mpr (by simp [Cache.new])

/-- C8: a command payload is executed only when its timestamp strictly
exceeds the stored last timestamp; otherwise `execute_commands` fails with
the timestamp error, executes nothing, and leaves the stored timestamp
unchanged. -/
theorem execute_commands_timestamp_guard (last : Option Nat)
    (pl : CommandPayload) :
    (∀ t, last = some t → pl.timestamp ≤ t →
      execute_commands_step last pl =
        (last, .error "Command timestamp did not increment compared to previous command payload")) ∧
    (∀ res, (execute_commands_step last pl).2 = Except.ok res →
      (∀ t, last = some t → t < pl.timestamp) ∧
      (execute_commands_step last pl).1 = some pl.timestamp ∧
      res = pl.commands) := by
  constructor
  · intro t ht hle
    subst ht
    simp [execute_commands_step, hle]
  · cases last with
    | none =>
      intro res hres
      have hrw : execute_commands_step none pl =
          (some pl.timestamp, Except.ok pl.commands) := rfl
      rw [hrw] at hres
      simp at hres
      refine ⟨(fun t ht => by cases ht), (by rw [hrw]), hres.symm⟩
    | some t =>
      intro res hres
      by_cases hge : t ≥ pl.timestamp
      · simp [execute_commands_step, hge] at hres
      · have hrw : execute_commands_step (some t) pl =
            (some pl.timestamp, Except.ok pl.commands) := by
          simp [execute_commands_step, hge]
        rw [hrw] at hres
        simp at hres
        refine ⟨(fun u hu => by cases hu; omega), (by rw [hrw]), hres.symm⟩

/-- Witness for C8 at a concrete input: a replayed timestamp (5, with last
seen also 5) is rejected with the timestamp error and the state is kept. -/
theorem execute_commands_timestamp_guard_witness :
    execute_commands_step (some 5) ⟨5, [1, 2, 3, 4], []⟩ =
      (some 5, .error "Command timestamp did not increment compared to previous command payload") :=
  (execute_commands_timestamp_guard (some 5) ⟨5, [1, 2, 3, 4], []⟩).1 5 rfl
    (by decide)

/-- C10 (code bug): round-tripping `CodeRate` through its serializer works
for every variant except `CrLi48`, which serializes to the string "4/5LI"
and therefore deserializes to `CrLi45`. -/
theorem coderate_roundtrip_bug :
    ∀ c : CodeRate,
      CodeRate.deserialize (CodeRate.serialize c) =
        .ok (if c = .CrLi48 then .CrLi45 else c) := by
  intro c
  cases c <;> rfl

/-- C4 (code bug): with configured powers `[10, 5]` and requested power 20,
`tx_power_to_index` returns index 1 (power 5) although index 0 holds the
largest configured power `≤ 20`, namely 10. -/
theorem tx_power_to_index_bug :
    tx_power_to_index txPowerConfExample 20 = .ok 1 ∧
    txPowerConfExample.mappings.tx_power.getD 0 0 = 10 ∧
    txPowerConfExample.mappings.tx_power.getD 1 0 = 5 ∧
    (10 : Int) ≤ 20 ∧ (5 : Int) < 10 := by
  refine ⟨by rfl, by rfl, by rfl, by decide, by decide⟩

/-- C3 (code bug): `handle_event_msg` discards a CRC-valid, non-proprietary,
filter-passing uplink whenever `border_gateway_ignore_direct_uplinks` is
set, even on a Relay Gateway (`border_gateway = false`) where the frame
would otherwise be relayed. -/
theorem ignore_direct_uplinks_bug :
    handle_event_msg_uplink false true true [0x40, 1, 2, 3] true =
      .discardedIgnoreDirect ∧
    handle_event_msg_uplink false false true [0x40, 1, 2, 3] true = .relayed := by
  refine ⟨by rfl, by rfl⟩

/-- C9: `validate_mic` errors (rather than returning false) when the MIC
field is absent, and returns false only when a MIC is present and differs
from the computed CMAC. -/
theorem validate_mic_spec (p : MeshPacket) (key : Aes128Key) :
    (p.mic = none → p.validate_mic key = .error "MIC is None") ∧
    (p.validate_mic key = .ok false →
      ∃ m c, p.mic = some m ∧ p.calculate_mic key = .ok c ∧ m ≠ c) := by
  constructor
  · intro h
    simp [MeshPacket.validate_mic, h]
  · intro h
    cases hm : p.mic with
    | none => simp [MeshPacket.validate_mic, hm] at h
    | some m =>
      cases hc : p.calculate_mic key with
      | error e => simp [MeshPacket.validate_mic, hm, hc] at h
      | ok c =>
        refine ⟨m, c, rfl, rfl, ?_⟩
        simp [MeshPacket.validate_mic, hm, hc] at h
        exact h

/-- Witness for C9 at a concrete input: validating the MIC of a packet with
`mic = None` yields the "MIC is None" error. -/
theorem validate_mic_spec_witness :
    micNonePacket.validate_mic Aes128Key.null = .error "MIC is None" :=
  (validate_mic_spec micNonePacket Aes128Key.null).1 rfl

/-- C2 (code bug): `send_events` encrypts with the key derived from the
all-zero key instead of `mesh.root_key`, and computes the MIC with
`get_signing_key(signing_key)` instead of honoring the legacy `signing_key`
override / deriving from `root_key`; with a non-zero root key both keys, and
the emitted heartbeat packet itself, differ from the documented rule. -/
theorem send_events_key_bug :
    get_encryption_key Aes128Key.null ≠ get_encryption_key c2Conf.mesh.root_key ∧
    get_signing_key c2Conf.mesh.signing_key ≠ mesh_signing_key c2Conf ∧
    send_events c2Conf [1, 2, 3, 4] 1000 [.Heartbeat ⟨[]⟩] ≠
      send_events_spec_keys c2Conf [1, 2, 3, 4] 1000 [.Heartbeat ⟨[]⟩] := by
  refine ⟨by decide, by decide, by decide⟩

/-- `MeshPacket.encrypt` never changes the header. -/
theorem encrypt_mhdr (p : MeshPacket) (k : Aes128Key) (q : MeshPacket)
    (h : p.encrypt k = .ok q) : q.mhdr = p.mhdr := by
  unfold MeshPacket.encrypt at h
  cases hp : p.payload <;> rw [hp] at h <;> dsimp only at h
  case Uplink pl => injection h with h2; rw [← h2]
  case Downlink pl => injection h with h2; rw [← h2]
  case Event pl =>
    cases he : pl.encrypt k <;> rw [he] at h <;> dsimp only at h
    · cases h
    · injection h with h2; rw [← h2]
  case Command pl =>
    cases he : pl.encrypt k <;> rw [he] at h <;> dsimp only at h
    · cases h
    · injection h with h2; rw [← h2]

/-- `MeshPacket.set_mic` never changes the header. -/
theorem set_mic_mhdr (p : MeshPacket) (k : Aes128Key) (q : MeshPacket)
    (h : p.set_mic k = .ok q) : q.mhdr = p.mhdr := by
  unfold MeshPacket.set_mic at h
  cases hc : p.calculate_mic k <;> rw [hc] at h <;> simp at h
  rw [← h]

/-- The sign-and-check tail errors out when the hop count exceeds the
limit, and transmits only packets whose hop count is unchanged and within
the limit. -/
theorem relay_sign_and_check_spec (conf : Configuration) (p1 : MeshPacket) :
    (p1.mhdr.hop_count > conf.mesh.max_hop_count →
      ∃ e, relay_sign_and_check conf p1 = .error e) ∧
    (∀ q, relay_sign_and_check conf p1 = .ok (.transmitted q) →
      q.mhdr.hop_count = p1.mhdr.hop_count ∧
      q.mhdr.hop_count ≤ conf.mesh.max_hop_count) := by
  unfold relay_sign_and_check
  cases h2 : p1.encrypt (get_encryption_key conf.mesh.root_key) with
  | error e =>
    exact ⟨fun _ => ⟨e, by simp⟩, fun q hq => by simp at hq⟩
  | ok p2 =>
    simp only [ebind_ok]
    cases h3 : p2.set_mic (mesh_signing_key conf) with
    | error e =>
      exact ⟨fun _ => ⟨e, by simp⟩, fun q hq => by simp at hq⟩
    | ok p3 =>
      simp only [ebind_ok]
      have hm : p3.mhdr.hop_count = p1.mhdr.hop_count := by
        rw [set_mic_mhdr p2 _ p3 h3, encrypt_mhdr p1 _ p2 h2]
      constructor
      · intro hgt
        refine ⟨"Max hop count exceeded", ?_⟩
        rw [if_pos (by omega)]
      · intro q hq
        by_cases hcond : p3.mhdr.hop_count > conf.mesh.max_hop_count
        · rw [if_pos hcond] at hq
          cases hq
        · rw [if_neg hcond] at hq
          injection hq with hq2
          injection hq2 with hq3
          rw [← hq3]
          exact ⟨hm, by omega⟩

/-- The re-relay tail errors out when the incremented hop count exceeds the
limit, and transmits only packets whose hop count was incremented by one
and stays within the limit. -/
theorem relay_retransmit_spec (conf : Configuration) (p : MeshPacket) :
    (p.mhdr.hop_count + 1 > conf.mesh.max_hop_count →
      ∃ e, relay_retransmit conf p = .error e) ∧
    (∀ q, relay_retransmit conf p = .ok (.transmitted q) →
      q.mhdr.hop_count = p.mhdr.hop_count + 1 ∧
      q.mhdr.hop_count ≤ conf.mesh.max_hop_count) := by
  unfold relay_retransmit
  exact relay_sign_and_check_spec conf
    { p with mhdr := { p.mhdr with hop_count := p.mhdr.hop_count + 1 } }

/-- C5: when a Relay Gateway re-relays a mesh packet not addressed to
itself, the hop count is incremented by one; if the incremented hop count
exceeds `max_hop_count` the function fails and nothing reaches the mesh
radio, and a packet is transmitted only with the incremented hop count
within the limit. -/
theorem relay_hop_limit (conf : Configuration) (rid : List Nat)
    (last : Option Nat) (ctx : Nat → Option (List Nat)) (rssi snr : Int)
    (p : MeshPacket) (hns : payload_relay_id p.payload ≠ rid) :
    (p.mhdr.hop_count + 1 > conf.mesh.max_hop_count →
      ∃ e, relay_mesh_packet conf rid last ctx rssi snr p = .error e) ∧
    (∀ q, relay_mesh_packet conf rid last ctx rssi snr p = .ok (.transmitted q) →
      q.mhdr.hop_count = p.mhdr.hop_count + 1 ∧
      q.mhdr.hop_count ≤ conf.mesh.max_hop_count) := by
  cases hp : p.payload with
  | Uplink pl =>
    rw [hp] at hns
    simp only [payload_relay_id] at hns
    have heq : relay_mesh_packet conf rid last ctx rssi snr p =
        relay_retransmit conf p := by
      unfold relay_mesh_packet
      rw [hp]
      simp [hns]
    rw [heq]
    exact relay_retransmit_spec conf p
  | Downlink pl =>
    rw [hp] at hns
    simp only [payload_relay_id] at hns
    have heq : relay_mesh_packet conf rid last ctx rssi snr p =
        relay_retransmit conf p := by
      unfold relay_mesh_packet
      rw [hp]
      simp [hns]
    rw [heq]
    exact relay_retransmit_spec conf p
  | Event pl =>
    rw [hp] at hns
    simp only [payload_relay_id] at hns
    have heq : relay_mesh_packet conf rid last ctx rssi snr p =
        relay_retransmit conf
          { p with payload := .Event { pl with events := pl.events.map fun e =>
              match e with
              | .Heartbeat v =>
                Event.Heartbeat ⟨v.relay_path ++ [⟨rid, rssi, snr⟩]⟩
              | other => other } } := by
      unfold relay_mesh_packet
      rw [hp]
      simp [hns]
    rw [heq]
    simpa using relay_retransmit_spec conf
      { p with payload := .Event { pl with events := pl.events.map fun e =>
          match e with
          | .Heartbeat v =>
            Event.Heartbeat ⟨v.relay_path ++ [⟨rid, rssi, snr⟩]⟩
          | other => other } }
  | Command pl =>
    rw [hp] at hns
    simp only [payload_relay_id] at hns
    have heq : relay_mesh_packet conf rid last ctx rssi snr p =
        relay_retransmit conf p := by
      unfold relay_mesh_packet
      rw [hp]
      simp [hns]
    rw [heq]
    exact relay_retransmit_spec conf p

/-- Witness for C5 at a concrete input (spec scenario 5): with
`max_hop_count = 3`, a received hop-3 uplink targeting another relay is
dropped with an error after the increment to hop 4. -/
theorem relay_hop_limit_witness :
    ∃ e, relay_mesh_packet hopLimitConf [1, 1, 1, 1] none (fun _ => none) 0 0
      hopLimitPacket = .error e :=
  (relay_hop_limit hopLimitConf [1, 1, 1, 1] none (fun _ => none) 0 0
    hopLimitPacket (by decide)).1 (by decide)

/-! ## C1: the serialize/deserialize round trip -/

/-- Taking the length of the left part of an append returns it. -/
theorem take_len_append {α : Type} (l1 l2 : List α) :
    (l1 ++ l2).take l1.length = l1 := by
  induction l1 with
  | nil => simp
  | cons a t ih => simp [ih]

/-- Dropping the length of the left part of an append returns the right. -/
theorem drop_len_append {α : Type} (l1 l2 : List α) :
    (l1 ++ l2).drop l1.length = l2 := by
  induction l1 with
  | nil => simp
  | cons a t ih => simp [ih]

/-- `take` at a known length of the left part. -/
theorem take_eq_of_len {α : Type} {n : Nat} (l1 l2 : List α)
    (h : l1.length = n) : (l1 ++ l2).take n = l1 := by
  subst h
  exact take_len_append l1 l2

/-- `drop` at a known length of the left part. -/
theorem drop_eq_of_len {α : Type} {n : Nat} (l1 l2 : List α)
    (h : l1.length = n) : (l1 ++ l2).drop n = l2 := by
  subst h
  exact drop_len_append l1 l2

/-- Masking a byte with 0x0f is reduction mod 16. -/
theorem and15_eq_mod : ∀ a < 256, a &&& 15 = a % 16 := by decide

/-- Masking a byte with 0x3f is reduction mod 64. -/
theorem and63_eq_mod : ∀ a < 256, a &&& 63 = a % 64 := by decide

/-- OR of a multiple of 16 below 256 with a nibble is addition. -/
theorem lor_low_nibble : ∀ a < 256, a % 16 = 0 → ∀ b < 16, a ||| b = a + b := by
  decide

/-- Decoding the encoded MHDR byte, uplink case. -/
theorem mhdr_fb_uplink : ∀ hc, hc ≤ 8 → 1 ≤ hc →
    MHDR.from_byte ((0x07 <<< 5) ||| (PayloadType.to_byte .Uplink <<< 3) |||
      (hc - 1)) = .ok ⟨.Uplink, hc⟩ := by
  decide

/-- Decoding the encoded MHDR byte, downlink case. -/
theorem mhdr_fb_downlink : ∀ hc, hc ≤ 8 → 1 ≤ hc →
    MHDR.from_byte ((0x07 <<< 5) ||| (PayloadType.to_byte .Downlink <<< 3) |||
      (hc - 1)) = .ok ⟨.Downlink, hc⟩ := by
  decide

/-- Decoding the encoded MHDR byte, event case. -/
theorem mhdr_fb_event : ∀ hc, hc ≤ 8 → 1 ≤ hc →
    MHDR.from_byte ((0x07 <<< 5) ||| (PayloadType.to_byte .Event <<< 3) |||
      (hc - 1)) = .ok ⟨.Event, hc⟩ := by
  decide

/-- Decoding the encoded MHDR byte, command case. -/
theorem mhdr_fb_command : ∀ hc, hc ≤ 8 → 1 ≤ hc →
    MHDR.from_byte ((0x07 <<< 5) ||| (PayloadType.to_byte .Command <<< 3) |||
      (hc - 1)) = .ok ⟨.Command, hc⟩ := by
  decide

/-- The MHDR round trip for hop counts in 1..=8. -/
theorem mhdr_roundtrip (m : MHDR) (h1 : 1 ≤ m.hop_count)
    (h8 : m.hop_count ≤ 8) :
    ∃ b, m.to_byte = .ok b ∧ MHDR.from_byte b = .ok m := by
  refine ⟨(0x07 <<< 5) ||| (m.payload_type.to_byte <<< 3) ||| (m.hop_count - 1),
    ?_, ?_⟩
  · unfold MHDR.to_byte
    rw [if_neg (by omega), if_neg (by omega)]
  · obtain ⟨pt, hc⟩ := m
    simp only [MHDR.hop_count, MHDR.payload_type] at h1 h8 ⊢
    cases pt
    · exact mhdr_fb_uplink hc h8 h1
    · exact mhdr_fb_downlink hc h8 h1
    · exact mhdr_fb_event hc h8 h1
    · exact mhdr_fb_command hc h8 h1

/-- The uplink metadata round trip for in-range fields. -/
theorem uplink_md_roundtrip (m : UplinkMetadata) (h : m.wf = true) :
    ∃ md, m.to_bytes = .ok md ∧ md.length = 5 ∧
      UplinkMetadata.from_bytes md = m := by
  obtain ⟨id, dr, rssi, snr, ch⟩ := m
  simp only [UplinkMetadata.wf, Bool.and_eq_true, decide_eq_true_eq] at h
  obtain ⟨⟨⟨⟨⟨⟨hid, hdr⟩, hr1⟩, hr2⟩, hs1⟩, hs2⟩, hch⟩ := h
  unfold UplinkMetadata.to_bytes
  dsimp only
  rw [if_neg (by omega), if_neg (by omega), if_neg (by omega),
    if_neg (by omega), if_neg (by omega), if_neg (by omega)]
  have hv : (id <<< 4) % 65536 = id * 16 := by
    rw [Nat.shiftLeft_eq]
    have h16 : (2 : Nat) ^ 4 = 16 := rfl
    rw [h16]
    omega
  rw [hv]
  refine ⟨_, rfl, rfl, ?_⟩
  have hlt : id * 16 % 256 < 256 := by omega
  have hlor : id * 16 % 256 ||| dr = id * 16 % 256 + dr :=
    lor_low_nibble _ hlt (by omega) dr (by omega)
  have hshr : ∀ x : Nat, x >>> 4 = x / 16 := fun x => by
    rw [Nat.shiftRight_eq_div_pow]
  unfold UplinkMetadata.from_bytes
  dsimp only
  rw [hlor]
  simp only [UplinkMetadata.mk.injEq]
  refine ⟨?_, ?_, ?_, ?_⟩
  · rw [hshr]
    omega
  · rw [and15_eq_mod _ (by omega)]
    omega
  · omega
  · by_cases hneg : snr < 0
    · rw [if_pos hneg]
      have hb : (snr + 64).toNat &&& 63 = (snr + 64).toNat := by
        rw [and63_eq_mod _ (by omega)]
        omega
      rw [hb, if_pos (by omega)]
      exact ⟨by omega, trivial⟩
    · rw [if_neg hneg]
      have hb : snr.toNat &&& 63 = snr.toNat := by
        rw [and63_eq_mod _ (by omega)]
        omega
      rw [hb, if_neg (by omega)]
      exact ⟨by omega, trivial⟩

/-- Unpacking the packed tx-power / delay byte. -/
theorem nibble_pack : ∀ a < 16, ∀ b < 16,
    (((a <<< 4) ||| b) &&& 0xf0) >>> 4 = a ∧ ((a <<< 4) ||| b) &&& 0x0f = b := by
  decide

/-- A list of length 4 is a 4-element literal. -/
theorem list_len_four {α : Type} (l : List α) (h : l.length = 4) :
    ∃ a b c d, l = [a, b, c, d] := by
  rcases l with _ | ⟨a, _ | ⟨b, _ | ⟨c, _ | ⟨d, _ | ⟨e, t⟩⟩⟩⟩⟩ <;> simp_all

/-- The frequency encoding round trip on stable frequencies. -/
theorem freq_roundtrip (f : Nat) (h : freq_stable f = true) :
    ∃ x y z, encode_freq f = .ok [x, y, z] ∧ decode_freq [x, y, z] = .ok f := by
  simp only [freq_stable, Bool.or_eq_true, Bool.and_eq_true,
    decide_eq_true_eq] at h
  unfold encode_freq
  dsimp only
  rcases h with ⟨h100, hlt⟩ | ⟨⟨hge, h200⟩, hub⟩
  · have hsel : (if f ≥ 2400000000 then f / 2 else f) = f := by
      rw [if_neg (by omega)]
    rw [hsel, if_neg (by omega), if_neg (by omega)]
    refine ⟨_, _, _, rfl, ?_⟩
    unfold decode_freq
    rw [if_neg (by simp)]
    dsimp only
    simp only [List.getD_cons_zero, List.getD_cons_succ]
    have hre : f / 100 / 65536 % 256 * 65536 + f / 100 / 256 % 256 * 256 +
        f / 100 % 256 = f / 100 := by omega
    rw [hre, if_neg (by omega)]
    congr 1
    omega
  · have hsel : (if f ≥ 2400000000 then f / 2 else f) = f / 2 := by
      rw [if_pos (by omega)]
    rw [hsel, if_neg (by omega), if_neg (by omega)]
    refine ⟨_, _, _, rfl, ?_⟩
    unfold decode_freq
    rw [if_neg (by simp)]
    dsimp only
    simp only [List.getD_cons_zero, List.getD_cons_succ]
    have hre : f / 2 / 100 / 65536 % 256 * 65536 + f / 2 / 100 / 256 % 256 * 256 +
        f / 2 / 100 % 256 = f / 2 / 100 := by omega
    rw [hre, if_pos (by omega)]
    congr 1
    omega

/-- The downlink metadata round trip for in-range fields and stable
frequencies. -/
theorem downlink_md_roundtrip (m : DownlinkMetadata) (h : m.wf = true) :
    ∃ md, m.to_bytes = .ok md ∧ md.length = 6 ∧
      DownlinkMetadata.from_bytes md = m := by
  obtain ⟨id, dr, f, tx, dl⟩ := m
  simp only [DownlinkMetadata.wf, Bool.and_eq_true, decide_eq_true_eq] at h
  obtain ⟨⟨⟨⟨⟨hid, hdr⟩, htx⟩, hd1⟩, hd2⟩, hf⟩ := h
  obtain ⟨x, y, z, hfb, hdec⟩ := freq_roundtrip f hf
  unfold DownlinkMetadata.to_bytes
  dsimp only
  rw [if_neg (by omega), if_neg (by omega), if_neg (by omega),
    if_neg (by omega), if_neg (by omega)]
  rw [hfb]
  simp only [ebind_ok]
  have hv : (id <<< 4) % 65536 = id * 16 := by
    rw [Nat.shiftLeft_eq]
    have h16 : (2 : Nat) ^ 4 = 16 := rfl
    rw [h16]
    omega
  rw [hv]
  refine ⟨_, rfl, rfl, ?_⟩
  have hlt : id * 16 % 256 < 256 := by omega
  have hlor : id * 16 % 256 ||| dr = id * 16 % 256 + dr :=
    lor_low_nibble _ hlt (by omega) dr (by omega)
  have hshr : ∀ x : Nat, x >>> 4 = x / 16 := fun x => by
    rw [Nat.shiftRight_eq_div_pow]
  have hpack := nibble_pack tx (by omega) (dl - 1) (by omega)
  unfold DownlinkMetadata.from_bytes
  dsimp only
  simp only [List.getD_cons_zero, List.getD_cons_succ]
  rw [hlor, hdec, hpack.1, hpack.2]
  simp only [DownlinkMetadata.mk.injEq]
  refine ⟨?_, ?_, ?_⟩
  · rw [hshr]
    omega
  · rw [and15_eq_mod _ (by omega)]
    omega
  · exact ⟨trivial, trivial, by omega⟩

/-- The relay-path entry round trip. -/
theorem relay_path_roundtrip (rp : RelayPath) (h : rp.wf = true) :
    ∃ b6, rp.to_bytes = .ok b6 ∧ b6.length = 6 ∧
      RelayPath.from_bytes b6 = rp := by
  obtain ⟨rid, rssi, snr⟩ := rp
  simp only [RelayPath.wf, Bool.and_eq_true, decide_eq_true_eq] at h
  obtain ⟨⟨⟨⟨hrid, hr1⟩, hr2⟩, hs1⟩, hs2⟩ := h
  obtain ⟨a, b, c, d, rfl⟩ := list_len_four rid hrid
  unfold RelayPath.to_bytes
  dsimp only
  rw [if_neg (by omega), if_neg (by omega), if_neg (by omega),
    if_neg (by omega)]
  refine ⟨_, rfl, rfl, ?_⟩
  unfold RelayPath.from_bytes
  dsimp only
  simp only [RelayPath.mk.injEq]
  refine ⟨rfl, ?_, ?_⟩
  · omega
  · by_cases hneg : snr < 0
    · rw [if_pos hneg]
      have hb : (snr + 64).toNat &&& 63 = (snr + 64).toNat := by
        rw [and63_eq_mod _ (by omega)]
        omega
      rw [hb, if_pos (by omega)]
      omega
    · rw [if_neg hneg]
      have hb : snr.toNat &&& 63 = snr.toNat := by
        rw [and63_eq_mod _ (by omega)]
        omega
      rw [hb, if_neg (by omega)]
      omega

/-- The uplink payload round trip. -/
theorem uplink_payload_roundtrip (pl : UplinkPayload)
    (hrid : pl.relay_id.length = 4) (hmd : pl.metadata.wf = true) :
    ∃ bs, pl.to_vec = .ok bs ∧ bs.length = 9 + pl.phy_payload.length ∧
      UplinkPayload.from_slice bs = .ok pl := by
  obtain ⟨meta, rid, phy⟩ := pl
  obtain ⟨md, hmd1, hmd5, hmdrt⟩ := uplink_md_roundtrip meta hmd
  unfold UplinkPayload.to_vec
  dsimp only at hrid ⊢
  rw [hmd1]
  simp only [ebind_ok]
  refine ⟨_, rfl, ?_, ?_⟩
  · rw [List.append_assoc]
    simp only [List.length_append, hmd5, hrid]
    omega
  · rw [List.append_assoc]
    unfold UplinkPayload.from_slice
    have hlen : (md ++ (rid ++ phy)).length = 9 + phy.length := by
      simp only [List.length_append, hmd5, hrid]
      omega
    rw [if_neg (by omega)]
    have h1 : (md ++ (rid ++ phy)).take 5 = md := take_eq_of_len _ _ hmd5
    have h2 : ((md ++ (rid ++ phy)).drop 5).take 4 = rid := by
      rw [drop_eq_of_len _ _ hmd5]
      exact take_eq_of_len _ _ hrid
    have h3 : (md ++ (rid ++ phy)).drop 9 = phy := by
      rw [show md ++ (rid ++ phy) = (md ++ rid) ++ phy from
        (List.append_assoc _ _ _).symm]
      exact drop_eq_of_len _ _ (by simp [List.length_append, hmd5, hrid])
    rw [h1, h2, h3, hmdrt]

/-- The downlink payload round trip. -/
theorem downlink_payload_roundtrip (pl : DownlinkPayload)
    (hrid : pl.relay_id.length = 4) (hmd : pl.metadata.wf = true) :
    ∃ bs, pl.to_vec = .ok bs ∧ bs.length = 10 + pl.phy_payload.length ∧
      DownlinkPayload.from_slice bs = .ok pl := by
  obtain ⟨meta, rid, phy⟩ := pl
  obtain ⟨md, hmd1, hmd6, hmdrt⟩ := downlink_md_roundtrip meta hmd
  unfold DownlinkPayload.to_vec
  dsimp only at hrid ⊢
  rw [hmd1]
  simp only [ebind_ok]
  refine ⟨_, rfl, ?_, ?_⟩
  · rw [List.append_assoc]
    simp only [List.length_append, hmd6, hrid]
    omega
  · rw [List.append_assoc]
    unfold DownlinkPayload.from_slice
    have hlen : (md ++ (rid ++ phy)).length = 10 + phy.length := by
      simp only [List.length_append, hmd6, hrid]
      omega
    rw [if_neg (by omega)]
    have h1 : (md ++ (rid ++ phy)).take 6 = md := take_eq_of_len _ _ hmd6
    have h2 : ((md ++ (rid ++ phy)).drop 6).take 4 = rid := by
      rw [drop_eq_of_len _ _ hmd6]
      exact take_eq_of_len _ _ hrid
    have h3 : (md ++ (rid ++ phy)).drop 10 = phy := by
      rw [show md ++ (rid ++ phy) = (md ++ rid) ++ phy from
        (List.append_assoc _ _ _).symm]
      exact drop_eq_of_len _ _ (by simp [List.length_append, hmd6, hrid])
    rw [h1, h2, h3, hmdrt]

/-- Decoding the 4 + 4 + rest layout of a serialized Event payload. -/
theorem event_from_slice_shape (t0 t1 t2 t3 : Nat) (rid rest : List Nat)
    (hrid : rid.length = 4) :
    EventPayload.from_slice ([t0, t1, t2, t3] ++ (rid ++ rest)) =
      .ok { timestamp := t0 * 16777216 + t1 * 65536 + t2 * 256 + t3
            relay_id := rid
            events := if rest = [] then [] else [.Encrypted rest] } := by
  unfold EventPayload.from_slice
  have hlen : ([t0, t1, t2, t3] ++ (rid ++ rest)).length = 8 + rest.length := by
    simp [hrid]
    omega
  rw [if_neg (by omega)]
  have hd4 : ([t0, t1, t2, t3] ++ (rid ++ rest)).drop 4 = rid ++ rest :=
    drop_eq_of_len _ _ (by simp)
  have hd8 : ([t0, t1, t2, t3] ++ (rid ++ rest)).drop 8 = rest := by
    rw [show [t0, t1, t2, t3] ++ (rid ++ rest) =
      ([t0, t1, t2, t3] ++ rid) ++ rest from (List.append_assoc _ _ _).symm]
    exact drop_eq_of_len _ _ (by simp [hrid])
  rw [hd4, hd8, take_eq_of_len _ _ hrid]
  simp only [List.cons_append, List.getD_cons_zero, List.getD_cons_succ]

/-- Decoding the 4 + 4 + rest layout of a serialized Command payload. -/
theorem command_from_slice_shape (t0 t1 t2 t3 : Nat) (rid rest : List Nat)
    (hrid : rid.length = 4) :
    CommandPayload.from_slice ([t0, t1, t2, t3] ++ (rid ++ rest)) =
      .ok { timestamp := t0 * 16777216 + t1 * 65536 + t2 * 256 + t3
            relay_id := rid
            commands := if rest = [] then [] else [.Encrypted rest] } := by
  unfold CommandPayload.from_slice
  have hlen : ([t0, t1, t2, t3] ++ (rid ++ rest)).length = 8 + rest.length := by
    simp [hrid]
    omega
  rw [if_neg (by omega)]
  have hd4 : ([t0, t1, t2, t3] ++ (rid ++ rest)).drop 4 = rid ++ rest :=
    drop_eq_of_len _ _ (by simp)
  have hd8 : ([t0, t1, t2, t3] ++ (rid ++ rest)).drop 8 = rest := by
    rw [show [t0, t1, t2, t3] ++ (rid ++ rest) =
      ([t0, t1, t2, t3] ++ rid) ++ rest from (List.append_assoc _ _ _).symm]
    exact drop_eq_of_len _ _ (by simp [hrid])
  rw [hd4, hd8, take_eq_of_len _ _ hrid]
  simp only [List.cons_append, List.getD_cons_zero, List.getD_cons_succ]

/-- The event payload round trip on transport-shaped item lists. -/
theorem event_payload_roundtrip (pl : EventPayload)
    (hrid : pl.relay_id.length = 4) (hts : pl.timestamp < 4294967296)
    (hsh : events_transport_shape pl.events = true) :
    ∃ bs, pl.to_vec = .ok bs ∧ 8 ≤ bs.length ∧
      EventPayload.from_slice bs = .ok pl := by
  obtain ⟨ts, rid, evs⟩ := pl
  dsimp only at hrid hts hsh ⊢
  have hmod : ts % 4294967296 = ts := Nat.mod_eq_of_lt hts
  have hts4 : ts / 16777216 % 256 * 16777216 + ts / 65536 % 256 * 65536 +
      ts / 256 % 256 * 256 + ts % 256 = ts := by omega
  cases evs with
  | nil =>
    unfold EventPayload.to_vec
    dsimp only
    rw [hmod]
    simp only [List.foldlM, epure_eq_ok, ebind_ok]
    refine ⟨_, rfl, ?_, ?_⟩
    · simp [hrid]
    · rw [List.append_assoc, event_from_slice_shape _ _ _ _ _ _ hrid]
      rw [if_pos rfl, hts4]
  | cons e rest =>
    cases rest with
    | cons f r2 =>
      exfalso
      cases e <;> simp [events_transport_shape] at hsh
    | nil =>
      cases e with
      | Heartbeat hb => exfalso; simp [events_transport_shape] at hsh
      | Proprietary t v => exfalso; simp [events_transport_shape] at hsh
      | Encrypted b =>
        have hb : b ≠ [] := by
          simpa [events_transport_shape, decide_eq_true_eq] using hsh
        unfold EventPayload.to_vec
        dsimp only
        rw [hmod]
        simp only [List.foldlM, Event.encode, epure_eq_ok, ebind_ok,
          List.nil_append]
        refine ⟨_, rfl, ?_, ?_⟩
        · simp [hrid]
        · rw [List.append_assoc, event_from_slice_shape _ _ _ _ _ _ hrid]
          rw [if_neg hb, hts4]

/-- The command payload round trip on transport-shaped item lists. -/
theorem command_payload_roundtrip (pl : CommandPayload)
    (hrid : pl.relay_id.length = 4) (hts : pl.timestamp < 4294967296)
    (hsh : commands_transport_shape pl.commands = true) :
    ∃ bs, pl.to_vec = .ok bs ∧ 8 ≤ bs.length ∧
      CommandPayload.from_slice bs = .ok pl := by
  obtain ⟨ts, rid, cs⟩ := pl
  dsimp only at hrid hts hsh ⊢
  have hmod : ts % 4294967296 = ts := Nat.mod_eq_of_lt hts
  have hts4 : ts / 16777216 % 256 * 16777216 + ts / 65536 % 256 * 65536 +
      ts / 256 % 256 * 256 + ts % 256 = ts := by omega
  cases cs with
  | nil =>
    unfold CommandPayload.to_vec
    dsimp only
    rw [hmod]
    simp only [List.foldlM, epure_eq_ok, ebind_ok]
    refine ⟨_, rfl, ?_, ?_⟩
    · simp [hrid]
    · rw [List.append_assoc, command_from_slice_shape _ _ _ _ _ _ hrid]
      rw [if_pos rfl, hts4]
  | cons c rest =>
    cases rest with
    | cons c2 r2 =>
      exfalso
      cases c <;> simp [commands_transport_shape] at hsh
    | nil =>
      cases c with
      | Proprietary t v => exfalso; simp [commands_transport_shape] at hsh
      | Encrypted b =>
        have hb : b ≠ [] := by
          simpa [commands_transport_shape, decide_eq_true_eq] using hsh
        unfold CommandPayload.to_vec
        dsimp only
        rw [hmod]
        simp only [List.foldlM, Command.encode, epure_eq_ok, ebind_ok,
          List.nil_append]
        refine ⟨_, rfl, ?_, ?_⟩
        · simp [hrid]
        · rw [List.append_assoc, command_from_slice_shape _ _ _ _ _ _ hrid]
          rw [if_neg hb, hts4]

/-- Decomposition of `MeshPacket.from_slice` on a byte string of shape
header byte, body, 4-byte MIC. -/
theorem mesh_from_slice_decomp (hb : Nat) (body micv : List Nat) (mh : MHDR)
    (hm4 : micv.length = 4) (hfb : MHDR.from_byte hb = .ok mh) :
    MeshPacket.from_slice (hb :: (body ++ micv)) =
      (match mh.payload_type with
        | .Uplink => (UplinkPayload.from_slice body).map Payload.Uplink
        | .Downlink => (DownlinkPayload.from_slice body).map Payload.Downlink
        | .Event => (EventPayload.from_slice body).map Payload.Event
        | .Command => (CommandPayload.from_slice body).map Payload.Command)
        >>= fun payload =>
          .ok { mhdr := mh, payload := payload, mic := some micv } := by
  have hlen : (hb :: (body ++ micv)).length = body.length + 5 := by
    simp only [List.length_cons, List.length_append, hm4]
  simp only [MeshPacket.from_slice, hlen]
  rw [if_neg (by omega), if_neg (by omega)]
  have hbody : ((hb :: (body ++ micv)).drop 1).take (body.length + 5 - 5) =
      body := by
    simp only [List.drop_one, List.tail_cons]
    rw [show body.length + 5 - 5 = body.length from by omega]
    exact take_len_append body micv
  have hmic : (hb :: (body ++ micv)).drop (body.length + 5 - 4) = micv := by
    rw [show body.length + 5 - 4 = body.length + 1 from by omega]
    simp only [List.drop_succ_cons]
    exact drop_len_append body micv
  simp only [List.getD_cons_zero, hfb, ebind_ok, hbody, hmic]
  cases mh.payload_type <;> rfl

/-- C1 (amended). Serializing and then decoding returns the original packet
for every well-formed mesh packet: hop count in 1..=8, a 4-byte MIC present,
the payload variant matching the header type, metadata fields in their
documented ranges, a round-trip-stable frequency (below 1.2 GHz and a
multiple of 100 Hz, or in the 2.4 GHz window and a multiple of 200 Hz), and
Event/Command item lists in transport form (empty, or exactly one non-empty
Encrypted blob). Amendment: the original claim also asserted the round trip
for downlink frequencies between 1.2 GHz and 2.4 GHz and for Event/Command
lists holding decoded TLV items; both are refuted (see the counterexample),
so those inputs are excluded here. -/
theorem mesh_packet_roundtrip (p : MeshPacket) (hwf : p.wf = true) :
    ∃ bs, p.to_vec = .ok bs ∧ MeshPacket.from_slice bs = .ok p := by
  obtain ⟨mh, pl, mico⟩ := p
  cases mico with
  | none => simp [MeshPacket.wf] at hwf
  | some micv =>
    simp only [MeshPacket.wf, Bool.and_eq_true, decide_eq_true_eq] at hwf
    obtain ⟨⟨⟨h1, h8⟩, hm4⟩, hpl⟩ := hwf
    obtain ⟨pt, hc⟩ := mh
    obtain ⟨b, hto, hfb⟩ := mhdr_roundtrip ⟨pt, hc⟩ h1 h8
    cases pt <;> cases pl
    case Uplink.Uplink up =>
      simp only [Bool.and_eq_true, decide_eq_true_eq] at hpl
      obtain ⟨hrid, hmdwf⟩ := hpl
      obtain ⟨body, hbv, _, hbfs⟩ := uplink_payload_roundtrip up hrid hmdwf
      refine ⟨b :: (body ++ micv), ?_, ?_⟩
      · simp only [MeshPacket.to_vec, Payload.to_vec]
        rw [hto, hbv]
        simp only [ebind_ok, List.cons_append]
      · rw [mesh_from_slice_decomp b body micv ⟨.Uplink, hc⟩ hm4 hfb]
        dsimp only
        rw [hbfs]
        simp only [Except.map, ebind_ok]
    case Downlink.Downlink dn =>
      simp only [Bool.and_eq_true, decide_eq_true_eq] at hpl
      obtain ⟨hrid, hmdwf⟩ := hpl
      obtain ⟨body, hbv, _, hbfs⟩ := downlink_payload_roundtrip dn hrid hmdwf
      refine ⟨b :: (body ++ micv), ?_, ?_⟩
      · simp only [MeshPacket.to_vec, Payload.to_vec]
        rw [hto, hbv]
        simp only [ebind_ok, List.cons_append]
      · rw [mesh_from_slice_decomp b body micv ⟨.Downlink, hc⟩ hm4 hfb]
        dsimp only
        rw [hbfs]
        simp only [Except.map, ebind_ok]
    case Event.Event ev =>
      simp only [Bool.and_eq_true, decide_eq_true_eq] at hpl
      obtain ⟨⟨hrid, hts⟩, hsh⟩ := hpl
      obtain ⟨body, hbv, _, hbfs⟩ := event_payload_roundtrip ev hrid hts hsh
      refine ⟨b :: (body ++ micv), ?_, ?_⟩
      · simp only [MeshPacket.to_vec, Payload.to_vec]
        rw [hto, hbv]
        simp only [ebind_ok, List.cons_append]
      · rw [mesh_from_slice_decomp b body micv ⟨.Event, hc⟩ hm4 hfb]
        dsimp only
        rw [hbfs]
        simp only [Except.map, ebind_ok]
    case Command.Command cm =>
      simp only [Bool.and_eq_true, decide_eq_true_eq] at hpl
      obtain ⟨⟨hrid, hts⟩, hsh⟩ := hpl
      obtain ⟨body, hbv, _, hbfs⟩ := command_payload_roundtrip cm hrid hts hsh
      refine ⟨b :: (body ++ micv), ?_, ?_⟩
      · simp only [MeshPacket.to_vec, Payload.to_vec]
        rw [hto, hbv]
        simp only [ebind_ok, List.cons_append]
      · rw [mesh_from_slice_decomp b body micv ⟨.Command, hc⟩ hm4 hfb]
        dsimp only
        rw [hbfs]
        simp only [Except.map, ebind_ok]
    all_goals simp at hpl

/-- C1 counterexample: the round trip fails on a downlink packet whose
frequency 1.3 GHz lies between the two supported bands (it decodes to
2.6 GHz), and on an event packet whose item list holds a decoded heartbeat
TLV item (it decodes to a single Encrypted blob). -/
theorem mesh_packet_roundtrip_counterexample :
    (freqBugPacket.to_vec >>= MeshPacket.from_slice ≠ .ok freqBugPacket) ∧
    (tlvBugPacket.to_vec >>= MeshPacket.from_slice ≠ .ok tlvBugPacket) := by
  decide

/-- The round-trip theorem applied to a concrete well-formed packet. -/
theorem mesh_packet_roundtrip_witness :
    wfRoundtripPacket.wf = true ∧
    ∃ bs, wfRoundtripPacket.to_vec = .ok bs ∧
      MeshPacket.from_slice bs = .ok wfRoundtripPacket :=
  ⟨by decide, mesh_packet_roundtrip wfRoundtripPacket (by decide)⟩

/-- The AES block function always returns 16 bytes. -/
theorem aes_encrypt_block_length (key blk : List Nat) :
    (aes_encrypt_block key blk).length = 16 := rfl

/-- Length of a flattened list of 16-byte blocks. -/
theorem flatten_blocks_length (f : Nat → List Nat)
    (hf : ∀ i, (f i).length = 16) :
    ∀ n, (List.flatten ((List.range n).map f)).length = 16 * n := by
  intro n
  induction n with
  | zero => rfl
  | succ m ih =>
    rw [List.range_succ, List.map_append, List.flatten_append]
    simp only [List.map_cons, List.map_nil, List.flatten_cons, List.flatten_nil,
      List.append_nil, List.length_append, ih, hf]
    omega

/-- Length of the named keystream. -/
theorem eecKeystream_length (key : Aes128Key) (cmd : Bool) (rid : List Nat)
    (ts L : Nat) :
    (eecKeystream key cmd rid ts L).length = 16 * (L / 16) := by
  unfold eecKeystream
  refine flatten_blocks_length _ ?_ _
  intro i
  rfl

/-- The blob transform on a non-empty payload, expressed with the named
keystream. -/
theorem eec_cons (key : Aes128Key) (cmd : Bool) (rid : List Nat) (ts x : Nat)
    (bt : List Nat) :
    encrypt_events_commands key cmd rid ts (x :: bt) =
      (List.zipWith HXor.hXor
        ((x :: bt) ++ List.replicate (16 - (x :: bt).length % 16) 0)
        (eecKeystream key cmd rid ts
          ((x :: bt).length + (16 - (x :: bt).length % 16)))).take
        (x :: bt).length := by
  simp only [encrypt_events_commands]
  rw [if_neg (by simp)]
  simp only [eecKeystream, List.length_append, List.length_replicate,
    List.length_cons]

/-- One keystream XOR application is undone by a second, for any paddings. -/
theorem zip_xor_take_invol :
    ∀ (b ks p1 p2 : List Nat), b.length ≤ ks.length →
      (List.zipWith HXor.hXor
        ((List.zipWith HXor.hXor (b ++ p1) ks).take b.length ++ p2)
        ks).take b.length = b := by
  intro b
  induction b with
  | nil => intro ks p1 p2 h; rfl
  | cons x bt ih =>
    intro ks p1 p2 h
    cases ks with
    | nil => simp at h
    | cons k kt =>
      simp only [List.cons_append, List.zipWith_cons_cons, List.length_cons,
        List.take_succ_cons, Nat.xor_cancel_right]
      rw [ih kt p1 p2 (by simpa using h)]

/-- The counter-mode blob transform of `encrypt_events_commands` is its own
inverse on every byte string. -/
theorem encrypt_events_commands_involutive (key : Aes128Key) (cmd : Bool)
    (rid : List Nat) (ts : Nat) (b : List Nat) :
    encrypt_events_commands key cmd rid ts
      (encrypt_events_commands key cmd rid ts b) = b := by
  cases b with
  | nil => rfl
  | cons x bt =>
    rw [eec_cons]
    set n := (x :: bt).length with hn
    set rep : List Nat := List.replicate (16 - n % 16) 0 with hrep
    set KS := eecKeystream key cmd rid ts (n + (16 - n % 16)) with hKS
    set E := (List.zipWith HXor.hXor ((x :: bt) ++ rep) KS).take n with hE
    have hKSlen : KS.length = n + (16 - n % 16) := by
      rw [hKS, eecKeystream_length]
      omega
    have hElen : E.length = n := by
      rw [hE, List.length_take, List.length_zipWith, List.length_append]
      rw [hrep, List.length_replicate, hKSlen]
      omega
    obtain ⟨y, yt, hEyt⟩ : ∃ y yt, E = y :: yt := by
      cases hEc : E with
      | nil =>
        rw [hEc, List.length_nil] at hElen
        rw [hn, List.length_cons] at hElen
        simp at hElen
      | cons y yt => exact ⟨y, yt, rfl⟩
    have hylen : (y :: yt).length = n := by
      rw [← hEyt]
      exact hElen
    rw [hEyt, eec_cons, hylen, ← hEyt, hE, ← hKS]
    exact zip_xor_take_invol (x :: bt) KS rep rep
      (by rw [hKSlen, hn]; omega)

/-- Prepending one full 6-byte chunk. -/
theorem chunksSix_prepend (blk rest : List Nat) (h : blk.length = 6) :
    chunksSix (blk ++ rest) = blk :: chunksSix rest := by
  obtain ⟨a, t, rfl⟩ : ∃ a t, blk = a :: t := by
    cases blk with
    | nil => simp at h
    | cons a t => exact ⟨a, t, rfl⟩
  have h1 := take_eq_of_len (a :: t) rest h
  have h2 := drop_eq_of_len (a :: t) rest h
  simp only [List.cons_append] at h1 h2
  simp only [List.cons_append, chunksSix, h1, h2]

/-- Serializing a list of in-range relay-path entries: folding `to_bytes`
appends 6-byte blocks that `chunksSix` splits back apart. -/
theorem relay_path_fold (l : List RelayPath) :
    ∀ acc : List Nat, l.all RelayPath.wf = true →
      ∃ bs, (l.foldlM (fun acc rp => do
          let b ← rp.to_bytes
          pure (acc ++ b)) acc : Except String (List Nat)) = .ok (acc ++ bs) ∧
        bs.length = 6 * l.length ∧
        (chunksSix bs).map RelayPath.from_bytes = l := by
  induction l with
  | nil =>
    intro acc h
    exact ⟨[], by simp [List.foldlM], by simp, by simp [chunksSix]⟩
  | cons rp l2 ih =>
    intro acc h
    simp only [List.all_cons, Bool.and_eq_true] at h
    obtain ⟨hrp, hl2⟩ := h
    obtain ⟨b6, hb6, hb6len, hb6fb⟩ := relay_path_roundtrip rp hrp
    obtain ⟨bs2, hfold, hlen, hchunks⟩ := ih (acc ++ b6) hl2
    refine ⟨b6 ++ bs2, ?_, ?_, ?_⟩
    · simp only [List.foldlM]
      rw [hb6]
      simp only [ebind_ok, epure_eq_ok] at hfold ⊢
      rw [hfold]
      simp [List.append_assoc]
    · simp only [List.length_append, List.length_cons, hb6len, hlen]
      omega
    · rw [chunksSix_prepend b6 bs2 hb6len, List.map_cons, hb6fb, hchunks]

/-- The heartbeat payload round trip for in-range path entries. -/
theorem heartbeat_roundtrip (hb : HeartbeatPayload)
    (h : hb.relay_path.all RelayPath.wf = true) :
    ∃ bs, hb.to_vec = .ok bs ∧ bs.length = 6 * hb.relay_path.length ∧
      HeartbeatPayload.from_slice bs = .ok hb := by
  obtain ⟨l⟩ := hb
  dsimp only at h ⊢
  obtain ⟨bs, hfold, hlen, hchunks⟩ := relay_path_fold l [] h
  simp only [List.nil_append] at hfold
  refine ⟨bs, ?_, hlen, ?_⟩
  · unfold HeartbeatPayload.to_vec
    dsimp only
    exact hfold
  · unfold HeartbeatPayload.from_slice
    rw [if_neg (by rw [hlen]; omega)]
    rw [hchunks]

/-- Encoding a list of decodable Event items concatenates their TLV bytes,
and the decode loop recovers the list. -/
theorem events_encode_decode :
    ∀ (l : List Event), l.all Event.decodable = true →
      ∃ bs, (∀ acc : List Nat,
          (l.foldlM (fun acc e => do
            let x ← e.encode
            pure (acc ++ x)) acc : Except String (List Nat)) = .ok (acc ++ bs)) ∧
        decodeEvents bs = l := by
  intro l
  induction l with
  | nil =>
    intro h
    exact ⟨[], fun acc => by simp [List.foldlM], by simp [decodeEvents]⟩
  | cons e l2 ih =>
    intro h
    simp only [List.all_cons, Bool.and_eq_true] at h
    obtain ⟨he, hl2⟩ := h
    obtain ⟨bs2, hfold2, hdec2⟩ := ih hl2
    cases e with
    | Encrypted v => simp [Event.decodable] at he
    | Heartbeat hb =>
      simp only [Event.decodable, Bool.and_eq_true, decide_eq_true_eq] at he
      obtain ⟨hwf, hle⟩ := he
      obtain ⟨hbs, hhv, hhlen, hhfs⟩ := heartbeat_roundtrip hb hwf
      have hm : hbs.length % 256 = hbs.length := by omega
      refine ⟨(0 :: hbs.length :: hbs) ++ bs2, ?_, ?_⟩
      · intro acc
        have henc : Event.encode (.Heartbeat hb) = .ok (0 :: hbs.length :: hbs) := by
          simp only [Event.encode]
          rw [hhv]
          simp only [ebind_ok, hm]
        simp only [List.foldlM]
        rw [henc]
        simp only [ebind_ok, epure_eq_ok] at hfold2 ⊢
        rw [hfold2]
        simp [List.append_assoc]
      · simp only [List.cons_append]
        simp only [decodeEvents]
        rw [if_neg (by rw [List.length_append]; omega)]
        rw [take_len_append, drop_len_append]
        have hone : decodeOneEvent 0 hbs = .ok (.Heartbeat hb) := by
          unfold decodeOneEvent
          rw [if_pos rfl, hhfs]
          rfl
        rw [hone]
        dsimp only
        rw [hdec2]
    | Proprietary t v =>
      simp only [Event.decodable, Bool.and_eq_true, decide_eq_true_eq] at he
      obtain ⟨ht, hv⟩ := he
      have hm : v.length % 256 = v.length := by omega
      refine ⟨(t :: v.length :: v) ++ bs2, ?_, ?_⟩
      · intro acc
        have henc : Event.encode (.Proprietary t v) = .ok (t :: v.length :: v) := by
          simp only [Event.encode, hm]
        simp only [List.foldlM]
        rw [henc]
        simp only [ebind_ok, epure_eq_ok] at hfold2 ⊢
        rw [hfold2]
        simp [List.append_assoc]
      · simp only [List.cons_append]
        simp only [decodeEvents]
        rw [if_neg (by rw [List.length_append]; omega)]
        rw [take_len_append, drop_len_append]
        have hone : decodeOneEvent t v = .ok (.Proprietary t v) := by
          unfold decodeOneEvent
          rw [if_neg ht]
        rw [hone]
        dsimp only
        rw [hdec2]

/-- Encoding a list of decodable Command items concatenates their TLV
bytes, and the decode loop recovers the list. -/
theorem commands_encode_decode :
    ∀ (l : List Command), l.all Command.decodable = true →
      ∃ bs, (∀ acc : List Nat,
          (l.foldlM (fun acc c => do
            let x ← c.encode
            pure (acc ++ x)) acc : Except String (List Nat)) = .ok (acc ++ bs)) ∧
        decodeCommands bs = l := by
  intro l
  induction l with
  | nil =>
    intro h
    exact ⟨[], fun acc => by simp [List.foldlM], by simp [decodeCommands]⟩
  | cons c l2 ih =>
    intro h
    simp only [List.all_cons, Bool.and_eq_true] at h
    obtain ⟨hc, hl2⟩ := h
    obtain ⟨bs2, hfold2, hdec2⟩ := ih hl2
    cases c with
    | Encrypted v => simp [Command.decodable] at hc
    | Proprietary t v =>
      simp only [Command.decodable, decide_eq_true_eq] at hc
      have hm : v.length % 256 = v.length := by omega
      refine ⟨(t :: v.length :: v) ++ bs2, ?_, ?_⟩
      · intro acc
        have henc : Command.encode (.Proprietary t v) = .ok (t :: v.length :: v) := by
          simp only [Command.encode, hm]
        simp only [List.foldlM]
        rw [henc]
        simp only [ebind_ok, epure_eq_ok] at hfold2 ⊢
        rw [hfold2]
        simp [List.append_assoc]
      · simp only [List.cons_append]
        simp only [decodeCommands]
        rw [if_neg (by rw [List.length_append]; omega)]
        rw [take_len_append, drop_len_append]
        rw [hdec2]

/-- Encrypt-then-decrypt identity for Event payloads with decodable items. -/
theorem event_encrypt_decrypt (key : Aes128Key) (pe : EventPayload)
    (he : pe.events.all Event.decodable = true) :
    (pe.encrypt key >>= fun q => q.decrypt key) = .ok pe := by
  obtain ⟨ts, rid, evs⟩ := pe
  dsimp only at he
  cases evs with
  | nil => rfl
  | cons e et =>
    obtain ⟨bs, hfold, hdec⟩ := events_encode_decode (e :: et) he
    unfold EventPayload.encrypt
    dsimp only
    rw [if_neg (by simp)]
    rw [hfold []]
    simp only [List.nil_append, ebind_ok]
    unfold EventPayload.decrypt
    dsimp only
    rw [if_neg (by simp), if_neg (by simp)]
    rw [encrypt_events_commands_involutive, hdec]

/-- Encrypt-then-decrypt identity for Command payloads with decodable
items. -/
theorem command_encrypt_decrypt (key : Aes128Key) (pc : CommandPayload)
    (hc : pc.commands.all Command.decodable = true) :
    (pc.encrypt key >>= fun q => q.decrypt key) = .ok pc := by
  obtain ⟨ts, rid, cs⟩ := pc
  dsimp only at hc
  cases cs with
  | nil => rfl
  | cons c ct =>
    obtain ⟨bs, hfold, hdec⟩ := commands_encode_decode (c :: ct) hc
    unfold CommandPayload.encrypt
    dsimp only
    rw [if_neg (by simp)]
    rw [hfold []]
    simp only [List.nil_append, ebind_ok]
    unfold CommandPayload.decrypt
    dsimp only
    rw [if_neg (by simp), if_neg (by simp)]
    rw [encrypt_events_commands_involutive, hdec]

/-- C6: for every key, decrypting the encryption of an Event or Command
payload whose items are decoded TLVs with values of at most 255 bytes
restores the payload, and the underlying counter-mode blob transform is its
own inverse on every byte string. -/
theorem encrypt_decrypt_identity (key : Aes128Key)
    (pe : EventPayload) (pc : CommandPayload)
    (he : pe.events.all Event.decodable = true)
    (hc : pc.commands.all Command.decodable = true) :
    (pe.encrypt key >>= fun q => q.decrypt key) = .ok pe ∧
    (pc.encrypt key >>= fun q => q.decrypt key) = .ok pc ∧
    ∀ (cmd : Bool) (rid : List Nat) (ts : Nat) (b : List Nat),
      encrypt_events_commands key cmd rid ts
        (encrypt_events_commands key cmd rid ts b) = b :=
  ⟨event_encrypt_decrypt key pe he, command_encrypt_decrypt key pc hc,
   fun cmd rid ts b => encrypt_events_commands_involutive key cmd rid ts b⟩

/-- The encrypt-decrypt theorem applied to concrete payloads. -/
theorem encrypt_decrypt_identity_witness :
    (c6Event.events.all Event.decodable = true) ∧
    (c6Command.commands.all Command.decodable = true) ∧
    ((c6Event.encrypt c6Key >>= fun q => q.decrypt c6Key) = .ok c6Event ∧
     (c6Command.encrypt c6Key >>= fun q => q.decrypt c6Key) = .ok c6Command ∧
     ∀ (cmd : Bool) (rid : List Nat) (ts : Nat) (b : List Nat),
       encrypt_events_commands c6Key cmd rid ts
         (encrypt_events_commands c6Key cmd rid ts b) = b) :=
  ⟨by decide, by decide,
   encrypt_decrypt_identity c6Key c6Event c6Command (by decide) (by decide)⟩

end Mesh
